import Mathlib

/-!
# Verification of the Godot scene-text parser (scene_tools/parser.ts, utils/tokenizer.ts)

This development is a shallow embedding of the scene parser:

* the rule-ordered lexer declared in `Parser`'s constructor (parser.ts),
  with the `_tokenize` loop of the `Tokenizr` subclass (tokenizer.ts),
* the recursive-descent value/tag parsers (`praseValue`, `parsePrimitive`,
  `parseConstruct`, `parseArray`, `parseDictionary`, `parseProperty`,
  `parseTag`),
* the top-level scene builder `parseScene`.

JavaScript dynamic values are modelled by the inductive `JSValue`/`PVal`
types; JS doubles are modelled as exact rationals with an explicit `NaN`
point (an `Option ℚ`, `none` = NaN).  Decimal literals appearing in the
verified inputs are exactly representable, so no rounding behaviour is
involved in any statement below.  Mutable JS objects reachable through
several references (scene nodes) are modelled by a store of node records
indexed by allocation order, so that object identity and later mutation
(`children.push`) are represented faithfully.

Where the embedded code calls into the third-party `tokenizr` npm library
(only the subclass's `_tokenize` override is in the repository), the
library surface (`peek`/`token`/`consume`/`alternatives`/`save`-restore,
token positions) is modelled from the specification; those definitions
carry a `Modelled from the spec:` comment.
-/

set_option maxHeartbeats 2000000

namespace GodotScene

/-- Token kinds, from `TokenType` in utils/tokenizer.ts. -/
inductive TokenType where
  | CURLY_BRACKET_OPEN
  | CURLY_BRACKET_CLOSE
  | BRACKET_OPEN
  | BRACKET_CLOSE
  | PARENTHESIS_OPEN
  | PARENTHESIS_CLOSE
  | COLON
  | COMMA
  | PERIOD
  | EQUAL
  | COLOR
  | STRING_NAME
  | STRING
  | NUMBER
  | IDENTIFIER
  | ARRAY
  | ERROR
  | EOF
deriving DecidableEq, Repr

/-- An element of the value of an `ARRAY` token: the parenthesized-argument
rule classifies each comma-split fragment as a string or a number
(`none` = NaN). -/
inductive JSPrim where
  | num (v : Option ℚ)
  | str (s : String)
deriving DecidableEq, Repr

/-- A primitive JavaScript value as it occurs in token values and fields:
`undefined`, booleans, numbers (exact rationals, `none` = NaN), strings, or
the plain string/number array produced by the parenthesized-argument rule. -/
inductive JSValue where
  | undef
  | bool (b : Bool)
  | num (v : Option ℚ)
  | str (s : String)
  | arr (xs : List JSPrim)
deriving DecidableEq, Repr

/-- A lexer token: kind, value, matched source text and source position
(offset, 1-based line and column).  Mirrors `Token` of the tokenizr
library as used by the code. -/
structure Token where
  ttype : TokenType
  value : JSValue
  text : String
  pos : Nat
  line : Nat
  column : Nat
deriving DecidableEq, Repr

/-- Errors thrown during lexing/parsing.  `unexpectedToken` carries the
expected kind, the actual token kind and the actual token's position
(offset, line, column), as `consume` reports.  `tokenNotRecognized` is
the defensive throw at the end of `_tokenize`.  `typeError` models a
JavaScript TypeError (e.g. reading `.path` of `undefined`).  `outOfFuel`
is an artefact of the embedding's explicit step bound and never occurs
for the inputs considered in the theorems below. -/
inductive PErr where
  | unexpectedToken (expected : TokenType) (actual : TokenType)
      (pos : Nat) (line : Nat) (column : Nat)
  | tokenNotRecognized (pos : Nat)
  | typeError (msg : String)
  | noAlternative
  | outOfFuel
deriving DecidableEq, Repr

/-! ## Character classes and JS regex primitives -/

/-- The class `[ \t\r\n]` of the whitespace rule. -/
def isWsChar (c : Char) : Bool :=
  c = ' ' ∨ c = '\t' ∨ c = '\r' ∨ c = '\n'

/-- JavaScript `.` (dot) in a regex without the `s` flag: any character
except the line terminators LF, CR, U+2028, U+2029. -/
def jsDot (c : Char) : Bool :=
  ¬ (c = '\n' ∨ c = '\r' ∨ c.toNat = 0x2028 ∨ c.toNat = 0x2029)

def isDigit (c : Char) : Bool := '0' ≤ c ∧ c ≤ '9'

def isHexDigit (c : Char) : Bool :=
  isDigit c ∨ ('a' ≤ c ∧ c ≤ 'f') ∨ ('A' ≤ c ∧ c ≤ 'F')

def isIdentStart (c : Char) : Bool :=
  ('a' ≤ c ∧ c ≤ 'z') ∨ ('A' ≤ c ∧ c ≤ 'Z') ∨ c = '_'

def isIdentRest (c : Char) : Bool :=
  isIdentStart c ∨ isDigit c ∨ c = '/'

/-- Characters removed by JavaScript's `String.prototype.trim`
(the ASCII portion, which is all the embedded inputs contain). -/
def isTrimChar (c : Char) : Bool :=
  c = ' ' ∨ c = '\t' ∨ c = '\n' ∨ c = '\r' ∨ c = '\x0b' ∨ c = '\x0c'

def jsTrim (s : List Char) : List Char :=
  ((s.dropWhile isTrimChar).reverse.dropWhile isTrimChar).reverse

/-- Digit value of a decimal digit character. -/
def digitVal (c : Char) : Nat := c.toNat - '0'.toNat

def digitsToNat (ds : List Char) : Nat :=
  ds.foldl (fun acc c => acc * 10 + digitVal c) 0

/-- The rational denoted by a decimal literal
`[sign] intDigits . fracDigits e expSign expDigits` (exact; JavaScript
would round to the nearest double, which agrees on every literal used in
this development).  Built through `mkRat` on naturals so that it is
kernel-reducible. -/
def decToRat (neg : Bool) (intDs fracDs : List Char) (expNeg : Bool)
    (expDs : List Char) : ℚ :=
  let m : Nat := digitsToNat (intDs ++ fracDs)
  let e : Nat := digitsToNat expDs
  let numN : Nat := m * (if expNeg then 1 else 10 ^ e)
  let den : Nat := 10 ^ fracDs.length * (if expNeg then 10 ^ e else 1)
  let num : Int := if neg then -(numN : Int) else (numN : Int)
  mkRat num den

/-- `Number(s)` on an already-trimmed string, as used by the
parenthesized-argument rule: the empty string is `0`; a decimal literal
(optional sign, digits, fraction, exponent) is its value; anything else
is NaN (`none`).  (JavaScript additionally accepts hex/binary/`Infinity`
forms that never occur in scene files; those fall to NaN here.) -/
def jsNumber (s : List Char) : Option ℚ :=
  match s with
  | [] => some 0
  | _ =>
    let (neg, rest) :=
      match s with
      | '-' :: r => (true, r)
      | '+' :: r => (false, r)
      | r => (false, r)
    let intDs := rest.takeWhile isDigit
    let rest1 := rest.drop intDs.length
    let (fracDs, rest2) :=
      match rest1 with
      | '.' :: r => (r.takeWhile isDigit, (r.takeWhile isDigit).length + 1)
      | _ => ([], 0)
    let rest2 := rest1.drop rest2
    if intDs.length = 0 ∧ fracDs.length = 0 then none
    else
      match rest2 with
      | [] => some (decToRat neg intDs fracDs false [])
      | e :: r =>
        if e = 'e' ∨ e = 'E' then
          let (expNeg, r1) :=
            match r with
            | '-' :: r1 => (true, r1)
            | '+' :: r1 => (false, r1)
            | r1 => (false, r1)
          let expDs := r1.takeWhile isDigit
          if expDs.length = 0 ∨ r1.length ≠ expDs.length then none
          else some (decToRat neg intDs fracDs expNeg expDs)
        else none

/-- One comma-split fragment of the parenthesized-argument rule:
`value.trim()`, then a quoted string (quotes stripped) when it both
starts and ends with `"`, otherwise `Number(value)`. -/
def classifyFragment (frag : List Char) : JSPrim :=
  let v := jsTrim frag
  if v.length ≥ 1 ∧ v.headI = '"' ∧ v.getLastI = '"' then
    .str (String.mk (v.drop 1).dropLast)
  else
    .num (jsNumber v)

/-- `result.split(',')` on a character list. -/
def splitCommas : List Char → List (List Char)
  | [] => [[]]
  | c :: rest =>
    if c = ',' then [] :: splitCommas rest
    else
      match splitCommas rest with
      | [] => [[c]]
      | f :: fs => (c :: f) :: fs

/-! ## The ten lexer rules (declaration order, parser.ts constructor) -/

/-- The outcome of one rule matching at the current offset: either the
match is discarded (`ctx.ignore()`) or accepted as a token of the given
kind and value; `len` is the length of the matched text. -/
inductive RuleRes where
  | ignore (len : Nat)
  | accept (t : TokenType) (v : JSValue) (len : Nat)
deriving DecidableEq, Repr

/-- Rule 1: `[ \t\r\n]+`, ignored. -/
def ruleWs (s : List Char) : Option RuleRes :=
  let run := (s.takeWhile isWsChar).length
  if run = 0 then none else some (.ignore run)

/-- Rule 2: `;.*`, ignored (JS `.` stops before a line terminator). -/
def ruleComment (s : List Char) : Option RuleRes :=
  match s with
  | ';' :: rest => some (.ignore (1 + (rest.takeWhile jsDot).length))
  | _ => none

/-- Rule 3: `\(([^)]+)\)` — the parenthesized-argument rule.  The capture
is split on every comma, each fragment trimmed and classified
(`classifyFragment`), and the list accepted as a single `ARRAY` token. -/
def ruleParenArgs (s : List Char) : Option RuleRes :=
  match s with
  | '(' :: rest =>
    let inner := rest.takeWhile (· ≠ ')')
    if inner.length = 0 then none
    else match rest.drop inner.length with
      | ')' :: _ =>
        some (.accept .ARRAY (.arr ((splitCommas inner).map classifyFragment))
          (inner.length + 2))
      | _ => none
  | _ => none

/-- Rule 4: the single-character structural tokens `{ } [ ] ( )`
(value defaults to the matched text). -/
def ruleStructural (s : List Char) : Option RuleRes :=
  match s with
  | '{' :: _ => some (.accept .CURLY_BRACKET_OPEN (.str "\x7b") 1)
  | '}' :: _ => some (.accept .CURLY_BRACKET_CLOSE (.str "\x7d") 1)
  | '[' :: _ => some (.accept .BRACKET_OPEN (.str "[") 1)
  | ']' :: _ => some (.accept .BRACKET_CLOSE (.str "]") 1)
  | '(' :: _ => some (.accept .PARENTHESIS_OPEN (.str "(") 1)
  | ')' :: _ => some (.accept .PARENTHESIS_CLOSE (.str ")") 1)
  | _ => none

/-- Rule 5: the single-character punctuation `: , . =`. -/
def rulePunct (s : List Char) : Option RuleRes :=
  match s with
  | ':' :: _ => some (.accept .COLON (.str ":") 1)
  | ',' :: _ => some (.accept .COMMA (.str ",") 1)
  | '.' :: _ => some (.accept .PERIOD (.str ".") 1)
  | '=' :: _ => some (.accept .EQUAL (.str "=") 1)
  | _ => none

/-- Rule 6: `#[0-9a-fA-F]+` (color; value defaults to the matched text). -/
def ruleColor (s : List Char) : Option RuleRes :=
  match s with
  | '#' :: rest =>
    let run := rest.takeWhile isHexDigit
    if run.length = 0 then none
    else some (.accept .COLOR (.str (String.mk ('#' :: run))) (1 + run.length))
  | _ => none

/-- The body scan of the string rule: `(?:\\.|[^"\\])*` followed by the
closing quote.  Returns the raw captured characters and the number of
characters consumed including the closing quote. -/
def scanStringBody : List Char → Option (List Char × Nat)
  | [] => none
  | '"' :: _ => some ([], 1)
  | '\\' :: d :: rest =>
    if jsDot d then
      match scanStringBody rest with
      | some (content, n) => some ('\\' :: d :: content, n + 2)
      | none => none
    else none
  | '\\' :: [] => none
  | c :: rest =>
    match scanStringBody rest with
    | some (content, n) => some (c :: content, n + 1)
    | none => none

/-- Escape decoding `.replace(/\\(.)/g, …)`: `\b \t \n \f \r` decode to
control characters, any other escaped character to itself. -/
def decodeEscapes : List Char → List Char
  | '\\' :: d :: rest =>
    (if d = 'b' then '\x08'
     else if d = 't' then '\t'
     else if d = 'n' then '\n'
     else if d = 'f' then '\x0c'
     else if d = 'r' then '\r'
     else d) :: decodeEscapes rest
  | c :: rest => c :: decodeEscapes rest
  | [] => []

/-- Rule 7: `"((?:\\.|[^"\\])*)"|&"((?:\\.|[^"\\])*)"` — quoted string or
`&`-prefixed string-name, with escape decoding. -/
def ruleString (s : List Char) : Option RuleRes :=
  match s with
  | '"' :: rest =>
    match scanStringBody rest with
    | some (content, n) =>
      some (.accept .STRING (.str (String.mk (decodeEscapes content))) (1 + n))
    | none => none
  | '&' :: '"' :: rest =>
    match scanStringBody rest with
    | some (content, n) =>
      some (.accept .STRING_NAME (.str (String.mk (decodeEscapes content))) (2 + n))
    | none => none
  | _ => none

/-- Rule 8: `[+-]?(?:\d+\.?\d*|\.\d+)(?:[eE][+-]?\d+)?`, value
`parseFloat` (exact rational here).  Returns `none` exactly when the
regex does not match at this offset. -/
def ruleNumber (s : List Char) : Option RuleRes :=
  let (neg, signLen, rest) :=
    match s with
    | '-' :: r => (true, 1, r)
    | '+' :: r => (false, 1, r)
    | r => (false, 0, r)
  let intDs := rest.takeWhile isDigit
  if intDs.length ≠ 0 then
    -- branch `\d+\.?\d*`
    let r1 := rest.drop intDs.length
    let (fracDs, fracLen) :=
      match r1 with
      | '.' :: r2 => (r2.takeWhile isDigit, (r2.takeWhile isDigit).length + 1)
      | _ => ([], 0)
    let r2 := r1.drop fracLen
    let expLen :=
      match r2 with
      | e :: r3 =>
        if e = 'e' ∨ e = 'E' then
          match r3 with
          | sg :: r4 =>
            if sg = '-' ∨ sg = '+' then
              let ds := r4.takeWhile isDigit
              if ds.length = 0 then 0 else 2 + ds.length
            else
              let ds := r3.takeWhile isDigit
              if ds.length = 0 then 0 else 1 + ds.length
          | [] => 0
        else 0
      | [] => 0
    let (expNeg, expDs) :=
      match r2 with
      | _ :: r3 =>
        match r3 with
        | '-' :: r4 => (true, r4.takeWhile isDigit)
        | '+' :: r4 => (false, r4.takeWhile isDigit)
        | _ => (false, r3.takeWhile isDigit)
      | [] => (false, [])
    let (expNeg, expDs) := if expLen = 0 then (false, []) else (expNeg, expDs)
    some (.accept .NUMBER (.num (some (decToRat neg intDs fracDs expNeg expDs)))
      (signLen + intDs.length + fracLen + expLen))
  else
    -- branch `\.\d+`
    match rest with
    | '.' :: r1 =>
      let fracDs := r1.takeWhile isDigit
      if fracDs.length = 0 then none
      else
        let r2 := r1.drop fracDs.length
        let expLen :=
          match r2 with
          | e :: r3 =>
            if e = 'e' ∨ e = 'E' then
              match r3 with
              | sg :: r4 =>
                if sg = '-' ∨ sg = '+' then
                  let ds := r4.takeWhile isDigit
                  if ds.length = 0 then 0 else 2 + ds.length
                else
                  let ds := r3.takeWhile isDigit
                  if ds.length = 0 then 0 else 1 + ds.length
              | [] => 0
            else 0
          | [] => 0
        let (expNeg, expDs) :=
          match r2 with
          | _ :: r3 =>
            match r3 with
            | '-' :: r4 => (true, r4.takeWhile isDigit)
            | '+' :: r4 => (false, r4.takeWhile isDigit)
            | _ => (false, r3.takeWhile isDigit)
          | [] => (false, [])
        let (expNeg, expDs) := if expLen = 0 then (false, []) else (expNeg, expDs)
        some (.accept .NUMBER (.num (some (decToRat neg [] fracDs expNeg expDs)))
          (signLen + 1 + fracDs.length + expLen))
    | _ => none

/-- Rule 9: `[a-zA-Z_][a-zA-Z0-9_\/]*`; the values `true`/`false` become
booleans, anything else stays a string. -/
def ruleIdent (s : List Char) : Option RuleRes :=
  match s with
  | c :: rest =>
    if isIdentStart c then
      let run := rest.takeWhile isIdentRest
      let text := String.mk (c :: run)
      let v : JSValue :=
        if text = "true" then .bool true
        else if text = "false" then .bool false
        else .str text
      some (.accept .IDENTIFIER v (1 + run.length))
    else none
  | [] => none

/-- Rule 10 (catch-all): `/./` — any single character except a line
terminator becomes an `ERROR` token carrying a diagnostic message. -/
def ruleCatchAll (s : List Char) : Option RuleRes :=
  match s with
  | c :: _ =>
    if jsDot c then
      some (.accept .ERROR (.str ("Unexpected character: " ++ String.mk [c])) 1)
    else none
  | [] => none

/-- The rules in declaration order. -/
def matchRule (i : Nat) (s : List Char) : Option RuleRes :=
  match i with
  | 0 => ruleWs s
  | 1 => ruleComment s
  | 2 => ruleParenArgs s
  | 3 => ruleStructural s
  | 4 => rulePunct s
  | 5 => ruleColor s
  | 6 => ruleString s
  | 7 => ruleNumber s
  | 8 => ruleIdent s
  | _ => ruleCatchAll s

/-! ## Position tracking and `_tokenize` -/

/-- Modelled from the spec: token positions are `(offset, line, column)`;
the line is one plus the number of newlines before the offset. -/
def lineOf (cs : List Char) (p : Nat) : Nat :=
  1 + ((cs.take p).filter (· = '\n')).length

/-- Modelled from the spec: the 1-based column is the number of
characters since the last newline plus one. -/
def colOf (cs : List Char) (p : Nat) : Nat :=
  ((cs.take p).reverse.takeWhile (· ≠ '\n')).length + 1

/-- The token built when rule `i` accepts a match of length `len` at
offset `p` (text is the matched substring; position is the match start). -/
def mkToken (cs : List Char) (p : Nat) (t : TokenType) (v : JSValue)
    (len : Nat) : Token :=
  { ttype := t, value := v, text := String.mk ((cs.drop p).take len),
    pos := p, line := lineOf cs p, column := colOf cs p }

/-- The `EOF` token pushed by `finish()`. -/
def eofToken (cs : List Char) : Token :=
  { ttype := .EOF, value := .str "", text := "",
    pos := cs.length, line := lineOf cs cs.length, column := colOf cs cs.length }

/-- The rule loop of the overridden `_tokenize` (tokenizer.ts), with
`left` counting the rules not yet tried (`left = 10 - i`): rules are
tried from index `i` upward at offset `p`; an ignored match advances the
offset and **continues with the next rule index** (it does not restart at
rule 0 — this is the behaviour of the `for` loop in `_tokenize`, whose
ignore branch only returns early at end of input); if no rule matches,
the defensive `token not recognized` error is thrown.  Returns `none`
when an ignored match consumed the rest of the input. -/
def runRulesFrom (cs : List Char) : Nat → Nat → Nat → Except PErr (Option (Token × Nat))
  | 0, p, _ => .error (.tokenNotRecognized p)
  | left + 1, p, i =>
    match matchRule i (cs.drop p) with
    | none => runRulesFrom cs left p (i + 1)
    | some (.ignore len) =>
      let p' := p + len
      if p' ≥ cs.length then .ok none
      else runRulesFrom cs left p' (i + 1)
    | some (.accept t v len) => .ok (some (mkToken cs p t v len, p + len))

/-- One full pass of the rule `for` loop from rule 0. -/
def runRules (cs : List Char) (p : Nat) : Except PErr (Option (Token × Nat)) :=
  runRulesFrom cs 10 p 0

/-- One lexer step: the next token and the offset after it.  At or past
the end of input this is the `EOF` token (idempotently); an ignored match
that consumes the rest of the input also ends in `EOF`, matching
`finish()`. -/
def nextToken (cs : List Char) (p : Nat) : Except PErr (Token × Nat) :=
  if p ≥ cs.length then .ok (eofToken cs, cs.length)
  else
    match runRules cs p with
    | .ok (some r) => .ok r
    | .ok none => .ok (eofToken cs, cs.length)
    | .error e => .error e

/-! ## Lexer interface (peek / token / consume / alternatives)

The lexer state visible to the parser is the current offset into the
input; tokens are produced on demand and deterministically, so peeking is
re-running `nextToken` without keeping the new offset. -/

/-- Modelled from the spec: `peek()` returns the next token without
consuming it. -/
def peekT (cs : List Char) (p : Nat) : Except PErr Token :=
  (nextToken cs p).map Prod.fst

/-- Modelled from the spec: `token()` consumes and returns the next
token. -/
def tokenT (cs : List Char) (p : Nat) : Except PErr (Token × Nat) :=
  nextToken cs p

/-- Modelled from the spec: `consume(expected)` consumes the next token
and fails with `UnexpectedToken` — reporting expected kind, actual kind
and the actual token's position — when its kind differs. -/
def consumeT (cs : List Char) (t : TokenType) (p : Nat) :
    Except PErr (Token × Nat) := do
  let (tok, p') ← nextToken cs p
  if tok.ttype = t then .ok (tok, p')
  else .error (.unexpectedToken t tok.ttype tok.pos tok.line tok.column)

/-- Modelled from the spec: `alternatives(...)` tries each sub-parse in
order from the saved lexer position, restoring the position on failure
(in this state-passing embedding, running the next alternative from the
same offset); it fails overall exactly when every alternative fails, and
then reports the last alternative's error. -/
def alternatives (ps : List (Nat → Except PErr (α × Nat))) (p : Nat) :
    Except PErr (α × Nat) :=
  match ps with
  | [] => .error .noAlternative
  | [q] => q p
  | q :: rest =>
    match q p with
    | .ok r => .ok r
    | .error _ => alternatives rest p

/-! ## Parsed values

`praseValue` is duck-typed in the source: it returns either a `Token`
(primitive case) or a `NodeProperty`-shaped object.  Downstream code only
reads `type`, `name`, `value`, `text`, `line`, so the embedding unifies
both shapes into `PResult`.  A parsed value (`PVal`) is either a plain
JS value (token values), the JS array of `NodeProperty` objects built by
`parseArray`, the `Map` built by `parseDictionary`, or a bare
`NodeProperty` object (the result of indexing into such an array). -/

mutual
inductive PVal where
  | js (v : JSValue)
  | arrP (xs : List PResult)
  | dictP (entries : List (JSValue × PResult))
  | obj (r : PResult)
inductive PResult where
  | mk (ptype : JSValue) (name : JSValue) (value : PVal) (text : String)
      (line : Nat)
end

def PResult.ptype : PResult → JSValue | .mk t _ _ _ _ => t
def PResult.name : PResult → JSValue | .mk _ n _ _ _ => n
def PResult.value : PResult → PVal | .mk _ _ v _ _ => v
def PResult.text : PResult → String | .mk _ _ _ t _ => t
def PResult.line : PResult → Nat | .mk _ _ _ _ l => l

/-- JavaScript's SameValueZero — the key equality of `Map` — restricted
to the values this program stores and looks up as keys: primitives
compare by value (`NaN` equals `NaN` under SameValueZero, which the
structural equality of the `NaN` point gives for free); objects compare
by *reference*, and in this program every object used as a map key is a
freshly allocated token/parse value that is inserted at most once and
never looked up again, so two object keys are never the same reference:
they compare unequal. -/
def sameValueZero : PVal → PVal → Bool
  | .js a, .js b =>
    match a, b with
    | .arr _, .arr _ => false
    | a, b => a = b
  | _, _ => false

/-- A `Token` seen as the duck-typed result of `praseValue`'s primitive
alternative: `type` is the token kind's enum string, `value`/`text`/`line`
are the token's. -/
def tokenTypeName : TokenType → String
  | .CURLY_BRACKET_OPEN => "CURLY_BRACKET_OPEN"
  | .CURLY_BRACKET_CLOSE => "CURLY_BRACKET_CLOSE"
  | .BRACKET_OPEN => "BRACKET_OPEN"
  | .BRACKET_CLOSE => "BRACKET_CLOSE"
  | .PARENTHESIS_OPEN => "PARENTHESIS_OPEN"
  | .PARENTHESIS_CLOSE => "PARENTHESIS_CLOSE"
  | .COLON => "COLON"
  | .COMMA => "COMMA"
  | .PERIOD => "PERIOD"
  | .EQUAL => "EQUAL"
  | .COLOR => "COLOR"
  | .STRING_NAME => "STRING_NAME"
  | .STRING => "STRING"
  | .NUMBER => "NUMBER"
  | .IDENTIFIER => "IDENTIFIER"
  | .ARRAY => "ARRAY"
  | .ERROR => "ERROR"
  | .EOF => "EOF"

def tokenToResult (t : Token) : PResult :=
  .mk (.str (tokenTypeName t.ttype)) .undef (.js t.value) t.text t.line

/-! ## JavaScript dynamic-value helpers used by the scene builder -/

/-- JS number-to-string for the values that occur here (`NaN` prints as
`"NaN"`, integers in decimal; non-integral rationals never reach a template
literal in the verified inputs and get a plain fractional rendering). -/
def numToString (v : Option ℚ) : String :=
  match v with
  | none => "NaN"
  | some q =>
    if q.den = 1 then toString q.num
    else toString q.num ++ "/" ++ toString q.den

def jsPrimToString : JSPrim → String
  | .num v => numToString v
  | .str s => s

/-- String coercion of a primitive JS value in a template literal. -/
def jsToString : JSValue → String
  | .undef => "undefined"
  | .bool b => if b then "true" else "false"
  | .num v => numToString v
  | .str s => s
  | .arr xs => String.intercalate "," (xs.map jsPrimToString)

/-- String coercion of a parsed value (JS `${…}`): arrays of objects and
maps coerce via `Object.prototype.toString`-style renderings. -/
def pToString : PVal → String
  | .js v => jsToString v
  | .arrP xs => String.intercalate "," (xs.map fun _ => "[object Object]")
  | .dictP _ => "[object Map]"
  | .obj _ => "[object Object]"

/-- JS truthiness of a parsed value. -/
def truthy : PVal → Bool
  | .js .undef => false
  | .js (.bool b) => b
  | .js (.num none) => false
  | .js (.num (some q)) => q ≠ 0
  | .js (.str s) => s ≠ ""
  | .js (.arr _) => true
  | .arrP _ => true
  | .dictP _ => true
  | .obj _ => true

/-- `v === undefined`. -/
def pIsUndef : PVal → Bool
  | .js .undef => true
  | _ => false

/-- `v === "."` (strict equality against the string literal). -/
def pIsDotStr : PVal → Bool
  | .js (.str s) => s = "."
  | _ => false

/-- `v?.length` — `length` of strings and arrays; `undefined` (here
`none`) for everything else, including `undefined` short-circuited by
`?.`. -/
def pLength : PVal → Option Nat
  | .js (.str s) => some s.length
  | .js (.arr xs) => some xs.length
  | .arrP xs => some xs.length
  | _ => none

/-- `v[0]`: indexing throws a TypeError on `undefined`, yields the first
element of an array (or `undefined` when empty), the first character of a
string, and `undefined` on other primitives and maps. -/
def pIndex0 : PVal → Except PErr PVal
  | .js .undef => .error (.typeError "Cannot read properties of undefined (reading '0')")
  | .js (.arr []) => .ok (.js .undef)
  | .js (.arr (x :: _)) =>
    .ok (.js (match x with | .num v => .num v | .str s => .str s))
  | .js (.str s) =>
    .ok (.js (match s.data with | [] => .undef | c :: _ => .str (String.mk [c])))
  | .js _ => .ok (.js .undef)
  | .arrP [] => .ok (.js .undef)
  | .arrP (r :: _) => .ok (.obj r)
  | .dictP _ => .ok (.js .undef)
  | .obj _ => .ok (.js .undef)

/-- `v?.includes(".tscn")`: `false` when `v` is `undefined` (optional
chaining); substring test on strings; membership on arrays; a TypeError
on primitives without an `includes` method. -/
def pIncludesTscn : PVal → Except PErr Bool
  | .js .undef => .ok false
  | .js (.str s) => .ok ((s.splitOn ".tscn").length > 1)
  | .js (.arr xs) => .ok (xs.any fun x => x = .str ".tscn")
  | .arrP _ => .ok false
  | .dictP _ => .error (.typeError "includes is not a function")
  | .obj _ => .error (.typeError "includes is not a function")
  | .js _ => .error (.typeError "includes is not a function")

/-- `a ?? b`. -/
def jsNullish (a b : PVal) : PVal :=
  match a with
  | .js .undef => b
  | _ => a

/-- `a += s` for the string-flavoured fields (`contextValue` starts out
`undefined`, so the first `+=` produces `"undefined…"`). -/
def jsAddStr (a : PVal) (s : String) : PVal :=
  .js (.str (pToString a ++ s))

/-- `a ?? b` on plain JS values. -/
def jsNullishV (a b : JSValue) : JSValue :=
  match a with
  | .undef => b
  | _ => a

/-! ## Value and tag parsers (parser.ts) -/

/-- `parsePrimitive`: `alternatives` over `consume` of NUMBER, STRING,
STRING_NAME, COLOR, IDENTIFIER. -/
def parsePrimitive (cs : List Char) (p : Nat) : Except PErr (Token × Nat) :=
  alternatives
    [consumeT cs .NUMBER, consumeT cs .STRING, consumeT cs .STRING_NAME,
     consumeT cs .COLOR, consumeT cs .IDENTIFIER] p

/-- `parseConstruct`: an IDENTIFIER immediately followed by an ARRAY
token; `type` is `token.value ?? 'CONSTRUCT'`, `value` the array token's
value, `text` the concatenation. -/
def parseConstruct (cs : List Char) (p : Nat) : Except PErr (PResult × Nat) := do
  let (token, p1) ← consumeT cs .IDENTIFIER p
  let (array, p2) ← consumeT cs .ARRAY p1
  .ok (.mk (jsNullishV token.value (.str "CONSTRUCT")) token.value
    (.js array.value) (token.text ++ array.text) token.line, p2)

/-- JS `Map.prototype.set` on an association list: updates the value at
an existing (structurally equal) key in place, otherwise appends. -/
def setKVj (m : List (JSValue × PResult)) (k : JSValue) (v : PResult) :
    List (JSValue × PResult) :=
  match m with
  | [] => [(k, v)]
  | (k', v') :: rest =>
    if k' = k then (k', v) :: rest else (k', v') :: setKVj rest k v

/-- The bundle of the mutually recursive value parsers at a given fuel
level (the fuel is an embedding artefact bounding the recursion; every
run appearing in a theorem below is given enough fuel; structural
recursion on the fuel keeps every parser kernel-reducible). -/
structure VParsers where
  value : Nat → Except PErr (PResult × Nat)
  array : Nat → Except PErr (PResult × Nat)
  arrLoop : Nat → Except PErr (List PResult × Nat)
  dict : Nat → Except PErr (PResult × Nat)
  dictLoop : List (JSValue × PResult) → Nat →
    Except PErr (List (JSValue × PResult) × Nat)

/-- The value parsers of parser.ts, by fuel level:

* `value` (`praseValue` [sic]): `alternatives` over construct, primitive
  (the token wrapped as a duck-typed result), array, dictionary, in that
  order — each alternative runs from the same saved offset and the last
  alternative's error is the overall error;
* `array` (`parseArray`): `[`, elements until `]` (commas consumed and
  skipped), `]`; value is the JS array of element results, text joins
  element texts with `", "` inside brackets;
* `dict` (`parseDictionary`): `{`, `primitive : value` pairs until `}`
  (commas skipped), `}`; value is the key→result map; text joins **only
  the quoted keys** with `","` inside braces (the implementation maps
  over the entries' first components — the keys — and never renders the
  parsed values). -/
def vp (cs : List Char) : Nat → VParsers
  | 0 =>
    { value := fun _ => .error .outOfFuel,
      array := fun _ => .error .outOfFuel,
      arrLoop := fun _ => .error .outOfFuel,
      dict := fun _ => .error .outOfFuel,
      dictLoop := fun _ _ => .error .outOfFuel }
  | fuel + 1 =>
    let prev := vp cs fuel
    { value := fun p =>
        match parseConstruct cs p with
        | .ok r => .ok r
        | .error _ =>
          match (parsePrimitive cs p).map (fun q => (tokenToResult q.1, q.2)) with
          | .ok r => .ok r
          | .error _ =>
            match prev.array p with
            | .ok r => .ok r
            | .error _ => prev.dict p,
      array := fun p => do
        let (token, p1) ← consumeT cs .BRACKET_OPEN p
        let (elems, p2) ← prev.arrLoop p1
        let (_, p3) ← consumeT cs .BRACKET_CLOSE p2
        .ok (.mk (.str "ARRAY") .undef (.arrP elems)
          ("[" ++ String.intercalate ", " (elems.map PResult.text) ++ "]")
          token.line, p3),
      arrLoop := fun p => do
        let t ← peekT cs p
        if t.ttype = .BRACKET_CLOSE then .ok ([], p)
        else if t.ttype = .COMMA then
          let (_, p1) ← tokenT cs p
          prev.arrLoop p1
        else
          let (v, p1) ← prev.value p
          let (rest, p2) ← prev.arrLoop p1
          .ok (v :: rest, p2),
      dict := fun p => do
        let (token, p1) ← consumeT cs .CURLY_BRACKET_OPEN p
        let (entries, p2) ← prev.dictLoop [] p1
        let (_, p3) ← consumeT cs .CURLY_BRACKET_CLOSE p2
        .ok (.mk (.str "DICTIONARY") .undef (.dictP entries)
          ("\x7b" ++
            String.intercalate ","
              (entries.map fun e => "\"" ++ jsToString e.1 ++ "\"") ++ "\x7d")
          token.line, p3),
      dictLoop := fun acc p => do
        let t ← peekT cs p
        if t.ttype = .CURLY_BRACKET_CLOSE then .ok (acc, p)
        else if t.ttype = .COMMA then
          let (_, p1) ← tokenT cs p
          prev.dictLoop acc p1
        else
          let (key, p1) ← parsePrimitive cs p
          let (_, p2) ← consumeT cs .COLON p1
          let (v, p3) ← prev.value p2
          prev.dictLoop (setKVj acc key.value v) p3 }

/-- `praseValue` [sic] at a fuel level. -/
def praseValue (cs : List Char) (fuel p : Nat) : Except PErr (PResult × Nat) :=
  (vp cs fuel).value p

/-- `parseArray` at a fuel level. -/
def parseArray (cs : List Char) (fuel p : Nat) : Except PErr (PResult × Nat) :=
  (vp cs fuel).array p

/-- `parseDictionary` at a fuel level. -/
def parseDictionary (cs : List Char) (fuel p : Nat) :
    Except PErr (PResult × Nat) :=
  (vp cs fuel).dict p

/-- `parseProperty`: IDENTIFIER, `=`, `praseValue`; text is
`token.text=value.text`. -/
def parseProperty (cs : List Char) (fuel : Nat) (p : Nat) :
    Except PErr (PResult × Nat) := do
  let (token, p1) ← consumeT cs .IDENTIFIER p
  let (_, p2) ← consumeT cs .EQUAL p1
  let (value, p3) ← praseValue cs fuel p2
  .ok (.mk value.ptype token.value value.value
    (token.text ++ "=" ++ value.text) token.line, p3)

/-- A parsed tag: name (a JS value — the identifier's value, possibly a
compound via `:`/`.`), field map (JS object keyed by the coerced field
name), reconstructed text, and the `[` token's line and offset. -/
structure TagD where
  name : JSValue
  fields : List (String × PVal)
  text : String
  line : Nat
  pos : Nat

def setField (fs : List (String × PVal)) (k : String) (v : PVal) :
    List (String × PVal) :=
  match fs with
  | [] => [(k, v)]
  | (k', v') :: rest =>
    if k' = k then (k', v) :: rest else (k', v') :: setField rest k v

/-- `tag.getField(key)`: the stored value, or `undefined`. -/
def tagGetField (t : TagD) (k : String) : PVal :=
  match t.fields.find? (fun e => e.1 = k) with
  | some e => e.2
  | none => .js .undef

def tagLoop (cs : List Char) :
    Nat → List (String × PVal) → List String → Nat →
    Except PErr ((List (String × PVal) × List String) × Nat)
  | 0, _, _, _ => .error .outOfFuel
  | fuel + 1, fields, texts, p => do
    let t ← peekT cs p
    if t.ttype = .BRACKET_CLOSE ∨ t.ttype = .EOF then .ok ((fields, texts), p)
    else
      let (f, p1) ← parseProperty cs fuel p
      tagLoop cs fuel (setField fields (jsToString f.name) f.value)
        (texts ++ [f.text]) p1

/-- `parseTag`: `[`, identifier (optionally extended by `:`/`.` and a
second identifier), `name = value` fields until `]`, `]`; the tag text
re-joins the name and field texts with single spaces inside brackets. -/
def parseTag (cs : List Char) (fuel : Nat) (p : Nat) :
    Except PErr (TagD × Nat) := do
  let (tok0, p1) ← consumeT cs .BRACKET_OPEN p
  let (nameTok, p2) ← consumeT cs .IDENTIFIER p1
  let t2 ← peekT cs p2
  let (tagName, p3) ←
    if t2.ttype = .COLON ∨ t2.ttype = .PERIOD then do
      let (ty, p3) ← tokenT cs p2
      let (v2, p4) ← consumeT cs .IDENTIFIER p3
      pure (JSValue.str
        (jsToString nameTok.value ++ jsToString ty.value ++ jsToString v2.value),
        p4)
    else pure (nameTok.value, p2)
  let ((fields, texts), p5) ← tagLoop cs fuel [] [jsToString tagName] p3
  let (_, p6) ← consumeT cs .BRACKET_CLOSE p5
  .ok ({ name := tagName, fields := fields,
         text := "[" ++ String.intercalate " " texts ++ "]",
         line := tok0.line, pos := tok0.pos }, p6)

/-! ## Scene data model (scene_tools/types.ts) and builder -/

/-- A resource record (`GDResource`). -/
structure GDRes where
  body : String
  path : PVal
  rtype : PVal
  uid : PVal
  id : PVal
  line : Nat
  properties : List PResult

/-- A scene node (`SceneNode`), as a plain record; `children` holds the
store indices of the child node objects (allocation order models JS
object identity). -/
structure SceneNodeD where
  label : PVal
  className : PVal
  description : PVal
  path : PVal
  relativePath : PVal
  parent : PVal
  text : String
  body : String
  position : Nat
  resourceUriPath : PVal
  properties : List PResult
  unique : PVal
  tooltip : PVal
  resourcePath : PVal
  contextValue : PVal
  hasScript : Bool
  scriptId : PVal
  children : List Nat

def dfltNode : SceneNodeD :=
  { label := .js .undef, className := .js .undef, description := .js .undef,
    path := .js .undef, relativePath := .js .undef, parent := .js .undef,
    text := "", body := "", position := 0, resourceUriPath := .js .undef,
    properties := [], unique := .js (.bool false), tooltip := .js .undef,
    resourcePath := .js .undef, contextValue := .js .undef,
    hasScript := false, scriptId := .js (.str ""), children := [] }

/-- The mutable `Scene` being built: the node store (index = allocation
order), the root node's index, the resource maps (JS objects keyed by
the coerced id), and the `nodes` map (a JS `Map` keyed by the absolute
path value). -/
structure SceneState where
  store : List SceneNodeD
  root : Option Nat
  externalResources : List (String × GDRes)
  subResources : List (String × GDRes)
  nodes : List (PVal × Nat)

def initState : SceneState :=
  { store := [], root := none, externalResources := [], subResources := [],
    nodes := [] }

/-- Association-list update for the JS-object resource maps. -/
def setResKV (m : List (String × GDRes)) (k : String) (v : GDRes) :
    List (String × GDRes) :=
  match m with
  | [] => [(k, v)]
  | (k', v') :: rest =>
    if k' = k then (k', v) :: rest else (k', v') :: setResKV rest k v

def resGet (m : List (String × GDRes)) (k : String) : Option GDRes :=
  match m.find? (fun e => e.1 = k) with
  | some e => some e.2
  | none => none

/-- `Map.set` for `scene.nodes` (SameValueZero keys, modelled
structurally; the original key object is kept on update). -/
def setNodeKV (m : List (PVal × Nat)) (k : PVal) (v : Nat) :
    List (PVal × Nat) :=
  match m with
  | [] => [(k, v)]
  | (k', v') :: rest =>
    if sameValueZero k' k then (k', v) :: rest else (k', v') :: setNodeKV rest k v

/-- `Map.get` for `scene.nodes`. -/
def getNodeKV (m : List (PVal × Nat)) (k : PVal) : Option Nat :=
  match m with
  | [] => none
  | (k', v') :: rest => if sameValueZero k' k then some v' else getNodeKV rest k

/-- `scene.nodes.get(parent)?.children.push(node)`: append the fresh
index to the children of the node at store index `pid`. -/
def pushChildAt (store : List SceneNodeD) (pid n : Nat) : List SceneNodeD :=
  match store.get? pid with
  | some nd => store.set pid { nd with children := nd.children ++ [n] }
  | none => store

/-- `scene.root.path` — throws a TypeError when no root has been set. -/
def rootPathOf (s : SceneState) : Except PErr PVal :=
  match s.root with
  | none => .error (.typeError "Cannot read properties of undefined (reading 'path')")
  | some r => .ok ((s.store.getD r dfltNode).path)

/-- The `ext_resource` branch of `parseScene`. -/
def handleExtResource (s : SceneState) (tag : TagD) : SceneState :=
  let res : GDRes :=
    { body := tag.text, path := tagGetField tag "path",
      rtype := tagGetField tag "type", uid := tagGetField tag "uid",
      id := tagGetField tag "id", line := tag.line, properties := [] }
  { s with externalResources :=
      setResKV s.externalResources (pToString (tagGetField tag "id")) res }

/-- The `sub_resource` branch of `parseScene`. -/
def handleSubResource (s : SceneState) (tag : TagD) (texts : List String)
    (props : List PResult) : SceneState :=
  let res : GDRes :=
    { body := String.intercalate "\n" texts, path := tagGetField tag "path",
      rtype := tagGetField tag "type", uid := tagGetField tag "uid",
      id := tagGetField tag "id", line := tag.line, properties := props }
  { s with subResources :=
      setResKV s.subResources (pToString (tagGetField tag "id")) res }

/-- Path resolution for a `node` tag (lines 94–110 of parser.ts):
returns the final `parent` value and the absolute and relative paths. -/
def resolveNodePath (s : SceneState) (name parent0 : PVal) :
    Except PErr (PVal × PVal × PVal) :=
  if truthy parent0 then
    if pIsDotStr parent0 then do
      let rootPath ← rootPathOf s
      .ok (rootPath,
        .js (.str (pToString rootPath ++ "/" ++ pToString name)), name)
    else do
      let rel := PVal.js (.str (pToString parent0 ++ "/" ++ pToString name))
      let rootPath ← rootPathOf s
      let par := PVal.js (.str (pToString rootPath ++ "/" ++ pToString parent0))
      .ok (par, .js (.str (pToString par ++ "/" ++ pToString name)), rel)
  else .ok (parent0, name, name)

/-- `instance?.length > 0` (an `undefined` length compares false). -/
def instLenPos (v : PVal) : Bool :=
  match pLength v with
  | some l => l > 0
  | none => false

/-- Resolution of a `node` tag's `instance` field (lines 127–136):
when the field has a positive `length`, look the first element's id up
in `externalResources` — reading `.path` off a missing entry throws —
and produce the node's `resourcePath` and accumulated `contextValue`. -/
def resolveInstance (s : SceneState) (instF : PVal) :
    Except PErr (PVal × PVal) :=
  if instLenPos instF then do
    let id ← pIndex0 instF
    match resGet s.externalResources (pToString id) with
    | none => .error (.typeError "Cannot read properties of undefined (reading 'path')")
    | some res => do
      let inc ← pIncludesTscn res.path
      let ctx1 := if inc then jsAddStr (.js .undef) "openable" else .js .undef
      .ok (res.path, jsAddStr ctx1 "hasResourcePath")
  else .ok (.js .undef, .js .undef)

/-- The `node` branch of `parseScene` (lines 82–157): build the
`SceneNode`, resolve paths and resources, set the root or push into the
parent's children, and insert into `scene.nodes` keyed by the absolute
path. -/
def handleNodeTag (s : SceneState) (tag : TagD) (props : List PResult)
    (bodyText : String) : Except PErr SceneState := do
  let (parentV, pAbs, pRel) ←
    resolveNodePath s (tagGetField tag "name") (tagGetField tag "parent")
  let unique :=
    match props.find? (fun r => decide (r.name = .str "unique_name_in_owner")) with
    | some r => jsNullish r.value (.js (.bool false))
    | none => .js (.bool false)
  let (resourcePath, ctx1) ← resolveInstance s (tagGetField tag "instance")
  let (hasScript, scriptId, ctx2) ←
    match props.find? (fun r => decide (r.name = .str "script")) with
    | some r => do
      let sid ← pIndex0 r.value
      pure (true, sid, jsAddStr ctx1 "hasScript")
    | none => pure (false, PVal.js (.str ""), ctx1)
  let n := s.store.length
  let node : SceneNodeD :=
    { label := tagGetField tag "name",
      className := jsNullish (tagGetField tag "type") (.js (.str "PackedScene")),
      description := jsNullish (tagGetField tag "type") (.js (.str "PackedScene")),
      path := pAbs, relativePath := pRel, parent := parentV,
      text := tag.text, body := bodyText, position := tag.pos,
      resourceUriPath := pAbs, properties := props, unique := unique,
      tooltip := .js (.str bodyText), resourcePath := resourcePath,
      contextValue := ctx2, hasScript := hasScript, scriptId := scriptId,
      children := [] }
  let store1 :=
    if pIsUndef parentV then s.store
    else if truthy parentV then
      match getNodeKV s.nodes parentV with
      | some pid => pushChildAt s.store pid n
      | none => s.store
    else s.store
  .ok { s with
        store := store1 ++ [node],
        root := if pIsUndef parentV then some n else s.root,
        nodes := setNodeKV s.nodes pAbs n }

/-- The trailing `identifier = value` property lines consumed by the
`sub_resource` and `node` branches (while the next token is an
identifier). -/
def propsLoop (cs : List Char) :
    Nat → List String → List PResult → Nat →
    Except PErr ((List String × List PResult) × Nat)
  | 0, _, _, _ => .error .outOfFuel
  | fuel + 1, texts, props, p => do
    let t ← peekT cs p
    if t.ttype = .IDENTIFIER then do
      let (prop, p1) ← parseProperty cs fuel p
      propsLoop cs fuel (texts ++ [prop.text]) (props ++ [prop]) p1
    else .ok ((texts, props), p)

/-- Fuel ample for any parse of the given input (an embedding artefact;
each parser step consumes at least one character or fails). -/
def FUEL (cs : List Char) : Nat := 4 * cs.length + 16

/-- The top-level loop of `parseScene`: tokens are peeked; anything that
is not a `[` at column 1 is consumed and discarded; otherwise a tag is
parsed and dispatched on its name.  On error, the error is returned
together with the scene state built so far (the JS exception aborts the
parse with the partially filled `Scene` left behind). -/
def sceneLoop (cs : List Char) :
    Nat → Nat → SceneState → Except (PErr × SceneState) SceneState
  | 0, _, s => .error (.outOfFuel, s)
  | fuel + 1, p, s =>
    match peekT cs p with
    | .error e => .error (e, s)
    | .ok token =>
      if token.ttype = .EOF then .ok s
      else if token.column ≠ 1 ∨ token.ttype ≠ .BRACKET_OPEN then
        match tokenT cs p with
        | .error e => .error (e, s)
        | .ok (_, p1) => sceneLoop cs fuel p1 s
      else
        match parseTag cs (FUEL cs) p with
        | .error e => .error (e, s)
        | .ok (tag, p1) =>
          if tag.name = JSValue.str "ext_resource" then
            sceneLoop cs fuel p1 (handleExtResource s tag)
          else if tag.name = JSValue.str "sub_resource" then
            match propsLoop cs (FUEL cs) [tag.text] [] p1 with
            | .error e => .error (e, s)
            | .ok ((texts, props), p2) =>
              sceneLoop cs fuel p2 (handleSubResource s tag texts props)
          else if tag.name = JSValue.str "node" then
            match propsLoop cs (FUEL cs) [tag.text] [] p1 with
            | .error e => .error (e, s)
            | .ok ((texts, props), p2) =>
              match handleNodeTag s tag props (String.intercalate "\n" texts) with
              | .error e => .error (e, s)
              | .ok s1 => sceneLoop cs fuel p2 s1
          else sceneLoop cs fuel p1 s

/-- The core parse: `Parser.input(text).parse(parseScene, scene)` on a
fresh scene.  Errors carry the partial scene state at the throw. -/
def runScene (text : String) : Except (PErr × SceneState) SceneState :=
  sceneLoop text.data (FUEL text.data) 0 initState

/-! ## Statement-level helpers -/

instance {ε α : Type} [DecidableEq ε] [DecidableEq α] :
    DecidableEq (Except ε α) := fun x y =>
  match x, y with
  | .ok a, .ok b =>
    if h : a = b then .isTrue (by rw [h])
    else .isFalse (fun hh => h (by cases hh; rfl))
  | .error a, .error b =>
    if h : a = b then .isTrue (by rw [h])
    else .isFalse (fun hh => h (by cases hh; rfl))
  | .ok _, .error _ => .isFalse (fun hh => by cases hh)
  | .error _, .ok _ => .isFalse (fun hh => by cases hh)

/-- All tokens of the input (`EOF` included), produced by iterating the
lexer from offset `p` — the token stream a full scan observes. -/
def lexTokens (cs : List Char) : Nat → Nat → Except PErr (List Token)
  | 0, _ => .error .outOfFuel
  | fuel + 1, p =>
    match nextToken cs p with
    | .error e => .error e
    | .ok (t, p') =>
      if t.ttype = .EOF then .ok [t]
      else
        match lexTokens cs fuel p' with
        | .ok ts => .ok (t :: ts)
        | .error e => .error e

/-- The scene state a parse ends in (successful or not). -/
def endScene (t : String) : SceneState :=
  match runScene t with
  | .ok s => s
  | .error (_, s) => s

/-- The node record at a store index. -/
def nodeAt (s : SceneState) (i : Nat) : SceneNodeD := s.store.getD i dfltNode

def nodePathAt (s : SceneState) (i : Nat) : PVal := (nodeAt s i).path

def childrenAt (s : SceneState) (i : Nat) : List Nat := (nodeAt s i).children

/-- The children indices of the node at a store index. -/
def childrenOf (store : List SceneNodeD) (i : Nat) : List Nat :=
  (store.getD i dfltNode).children

/-- The absolute path of the node at a store index. -/
def pathOf (store : List SceneNodeD) (i : Nat) : PVal :=
  (store.getD i dfltNode).path

/-- The store indices reachable from a node by following `children`
edges, as a preorder listing (fuelled; children always have strictly
larger indices than their parent, so `store.length` levels suffice). -/
def reachF (store : List SceneNodeD) : Nat → Nat → List Nat
  | 0, _ => []
  | fuel + 1, id => id :: ((childrenOf store id).map (reachF store fuel)).flatten

/-- The nodes reachable from `scene.root`. -/
def reachIds (s : SceneState) : List Nat :=
  match s.root with
  | none => []
  | some r => reachF s.store (s.store.length + 1) r

/-- The structural invariant `parseScene` maintains on the growing scene:
children indices point strictly forward (a node can only be pushed into
the children of an earlier node, and only at its own creation), the root
and every `nodes` entry are in range and keyed by their node's absolute
path, and the tree reachable from the root lists every node at most
once. -/
structure Inv (s : SceneState) : Prop where
  children_range : ∀ i, i < s.store.length →
    ∀ c ∈ childrenOf s.store i, i < c ∧ c < s.store.length
  root_lt : ∀ r, s.root = some r → r < s.store.length
  nodes_range : ∀ k id, (k, id) ∈ s.nodes →
    id < s.store.length ∧ k = pathOf s.store id
  reach_nodup : (reachIds s).Nodup

/-- The `nodes` map is exactly the association of each committed node's
absolute path to the node, in allocation order. -/
def NodesExact (s : SceneState) : Prop :=
  s.nodes = (List.range s.store.length).map (fun i => (pathOf s.store i, i))

/-- The absolute paths of all committed nodes, in allocation order. -/
def storePaths (s : SceneState) : List PVal :=
  s.store.map SceneNodeD.path

/-- Pairwise distinctness of a list of parsed values under the map's own
key equality (`sameValueZero`). -/
def nodupPB : List PVal → Bool
  | [] => true
  | x :: xs => xs.all (fun y => !(sameValueZero x y)) && nodupPB xs

/-- Modelled from the spec: the scene metadata set by the caller
(`parse_scene`) before invoking the core — `path`, `title` (the path's
basename) and `mtime`; the parse result itself depends only on the
text. -/
structure SceneFull where
  path : String
  title : String
  mtime : ℚ
  result : Except (PErr × SceneState) SceneState

/-- Modelled from the spec: `basename` of a slash-separated path. -/
def basename (p : String) : String :=
  (p.splitOn "/").getLastD p

/-- One invocation of the core parse with its scene metadata (the
`fs.statSync`/cache layer is the out-of-scope collaborator; `mtime` is
the modification time it passes in). -/
def parseSceneCore (text path : String) (mtime : ℚ) : SceneFull :=
  { path := path, title := basename path, mtime := mtime,
    result := runScene text }

/-- Structural equality of two parses ignoring only the `mtime` cache
field. -/
def sceneEqIgnoringMtime (a b : SceneFull) : Prop :=
  a.path = b.path ∧ a.title = b.title ∧ a.result = b.result

/-- Position data of an error. -/
def errPos : PErr → Option (Nat × Nat × Nat)
  | .unexpectedToken _ _ p l c => some (p, l, c)
  | .tokenNotRecognized p => some (p, 1, p + 1)
  | _ => none

def isUnexpectedToken : PErr → Bool
  | .unexpectedToken _ _ _ _ _ => true
  | _ => false

/-- The input of C1. -/
def c1Input : String := "(1, 2.5, \"a,b\")"

/-- The input of C3. -/
def c3Input : String :=
  "[node name=\"A\"]\n[node name=\"B\" parent=\".\"]\n[node name=\"C\" parent=\"B\"]"

/-- The input of C4. -/
def c4Input : String := "[node name=]"

/-- The counterexample input of C8: a lone U+2028 LINE SEPARATOR. -/
def c8Cex : List Char := [Char.ofNat 0x2028]

/-- The dictionary input of C2's counterexample. -/
def c2CexInput : String := "\x7b\"a\": 1\x7d"

/-- The counterexample input of C6: two node tags resolving to the same
absolute path `A/B`. -/
def c6Cex : String :=
  "[node name=\"A\"]\n[node name=\"B\" parent=\".\"]\n[node name=\"B\" parent=\".\"]"

/-- The input of C9's concrete conjunct: an `instance` field whose id
`"9"` was never declared by an `ext_resource` tag. -/
def c9Input : String := "[node name=\"A\" instance=ExtResource(\"9\")]"

def dfltRes : PResult := .mk .undef .undef (.js .undef) "" 0

/-- The result a top-level `praseValue` run delivers on the input. -/
def valueResult (t : String) : PResult :=
  match praseValue t.data (FUEL t.data) 0 with
  | .ok (r, _) => r
  | .error _ => dfltRes

/-- The texts of a dictionary result's entry values. -/
def dictEntryTexts (r : PResult) : List String :=
  match r.value with
  | .dictP es => es.map fun e => (e.2).text
  | _ => []

def isOkE : Except ε α → Bool
  | .ok _ => true
  | .error _ => false

/-- The state shape `handleNodeTag` commits on success: the (possibly
parent-updated) store extended with the new node, the possibly-set root,
and the `nodes` map keyed by the new node's absolute path. -/
def commitState (s : SceneState) (store1 : List SceneNodeD)
    (node : SceneNodeD) (pAbs : PVal) (root1 : Option Nat) : SceneState :=
  { store := store1 ++ [node], root := root1,
    externalResources := s.externalResources,
    subResources := s.subResources,
    nodes := setNodeKV s.nodes pAbs s.store.length }

/-! ## Theorems -/

/-- `bind` on a succeeded `Except` computation. -/
theorem exbind_ok {ε α β : Type} (a : α) (f : α → Except ε β) :
    (Except.ok a >>= f) = f a := rfl

/-- `bind` on a failed `Except` computation. -/
theorem exbind_err {ε α β : Type} (e : ε) (f : α → Except ε β) :
    ((Except.error e : Except ε α) >>= f) = .error e := rfl

/-- Helper for C10: whenever the parenthesized-argument rule fires, at
least one character lies between the parentheses, and the token value is
the classified comma-naive split of that inner text. -/
theorem ruleParenArgs_some {s : List Char} {r : RuleRes}
    (h : ruleParenArgs s = some r) :
    ∃ inner : List Char, 1 ≤ inner.length ∧
      r = .accept .ARRAY (.arr ((splitCommas inner).map classifyFragment))
          (inner.length + 2) := by
  unfold ruleParenArgs at h
  split at h
  · rename_i rest
    by_cases h0 : (rest.takeWhile (· ≠ ')')).length = 0
    · rw [if_pos h0] at h; cases h
    · rw [if_neg h0] at h
      split at h
      · cases h
        exact ⟨rest.takeWhile (· ≠ ')'), by omega, rfl⟩
      · cases h
  · cases h

/-- The `consume` step in explicit match form. -/
theorem consumeT_eq (cs : List Char) (t : TokenType) (p : Nat) :
    consumeT cs t p =
      match nextToken cs p with
      | .error e => .error e
      | .ok (tok, p') =>
        if tok.ttype = t then .ok (tok, p')
        else .error (.unexpectedToken t tok.ttype tok.pos tok.line tok.column) := by
  unfold consumeT
  cases h : nextToken cs p with
  | error e => rfl
  | ok v => cases v; rfl

/-- `parseConstruct` fails as soon as the identifier is missing. -/
theorem parseConstruct_ident_err {cs : List Char} {p : Nat} {e : PErr}
    (h : consumeT cs .IDENTIFIER p = .error e) :
    parseConstruct cs p = .error e := by
  unfold parseConstruct
  rw [h]
  rfl

/-- `parseConstruct` fails when no `ARRAY` token follows the
identifier. -/
theorem parseConstruct_array_err {cs : List Char} {p p1 : Nat} {tok : Token}
    {e : PErr}
    (h1 : consumeT cs .IDENTIFIER p = .ok (tok, p1))
    (h2 : consumeT cs .ARRAY p1 = .error e) :
    parseConstruct cs p = .error e := by
  unfold parseConstruct
  rw [h1]
  show (consumeT cs TokenType.ARRAY p1 >>= _) = _
  rw [h2]
  rfl

/-- Helper for C10: `parseConstruct` fails whenever the token after the
identifier is a bare `(` (a `PARENTHESIS_OPEN`, not an `ARRAY`). -/
theorem parseConstruct_no_array {cs : List Char} {p p1 p2 : Nat}
    {tok t2 : Token}
    (h1 : consumeT cs .IDENTIFIER p = .ok (tok, p1))
    (h2 : nextToken cs p1 = .ok (t2, p2))
    (h3 : t2.ttype = .PARENTHESIS_OPEN) :
    parseConstruct cs p =
      .error (.unexpectedToken .ARRAY .PARENTHESIS_OPEN t2.pos t2.line t2.column) := by
  refine parseConstruct_array_err h1 ?_
  rw [consumeT_eq, h2]
  simp [h3]

/-- C1: lexing `(1, 2.5, "a,b")` yields a single `ARRAY` token (plus
end-of-input) whose value is the comma-naive literal split of the inner
text into the four fragments `1`/` 2.5`/` "a`/`b"`; each fragment is
trimmed and — since a fragment counts as a quoted string only when it
both starts *and* ends with `"` — the fragments `"a` and `b"` are passed
to `Number(...)` and come out NaN, with no special handling of the comma
inside the quoted argument. -/
theorem c1_paren_args_naive_split :
    lexTokens c1Input.data 4 0 =
      .ok [{ ttype := .ARRAY,
             value := .arr [.num (some 1), .num (some (mkRat 5 2)),
                            .num none, .num none],
             text := c1Input, pos := 0, line := 1, column := 1 },
           eofToken c1Input.data] ∧
    (splitCommas ("1, 2.5, \"a,b\"".data)).map classifyFragment =
      [.num (some 1), .num (some (mkRat 5 2)), .num none, .num none] :=
  ⟨by decide, by decide⟩

/-- C3: on `[node name="A"]`, `[node name="B" parent="."]`,
`[node name="C" parent="B"]`, the scene root is node `A` (store index
0), `B` has absolute path `A/B`, `C` has absolute path `A/B/C`,
`A.children == [B]` and `B.children == [C]`, and the `nodes` map holds
exactly these three absolute paths. -/
theorem c3_path_resolution :
    runScene c3Input = .ok (endScene c3Input) ∧
    (endScene c3Input).root = some 0 ∧
    (nodeAt (endScene c3Input) 0).label = .js (.str "A") ∧
    nodePathAt (endScene c3Input) 0 = .js (.str "A") ∧
    (nodeAt (endScene c3Input) 1).label = .js (.str "B") ∧
    nodePathAt (endScene c3Input) 1 = .js (.str "A/B") ∧
    (nodeAt (endScene c3Input) 2).label = .js (.str "C") ∧
    nodePathAt (endScene c3Input) 2 = .js (.str "A/B/C") ∧
    childrenAt (endScene c3Input) 0 = [1] ∧
    childrenAt (endScene c3Input) 1 = [2] ∧
    childrenAt (endScene c3Input) 2 = [] ∧
    (endScene c3Input).nodes =
      [(.js (.str "A"), 0), (.js (.str "A/B"), 1), (.js (.str "A/B/C"), 2)] :=
  ⟨rfl, rfl, rfl, rfl, rfl, rfl, rfl, rfl, rfl, rfl, rfl, rfl⟩

/-- C4: parsing `[node name=]` fails with an `UnexpectedToken` error
positioned at the `]` token (offset 11, line 1, column 12 — the second
conjunct checks that this is indeed the `]` token's position); the
expected kind reported is the last alternative's (`parseDictionary`'s
`{`).  The error aborts the parse with the scene still in its initial
state: no `Scene.nodes` entry was committed. -/
theorem c4_missing_value_unexpected_token :
    runScene c4Input =
      .error (.unexpectedToken .CURLY_BRACKET_OPEN .BRACKET_CLOSE 11 1 12,
              initState) ∧
    nextToken c4Input.data 11 =
      .ok (⟨.BRACKET_CLOSE, .str "]", "]", 11, 1, 12⟩, 12) ∧
    (endScene c4Input).nodes = [] ∧
    (endScene c4Input).store = [] :=
  ⟨rfl, by decide, rfl, rfl⟩

/-- C7: the core parse is a pure function of the input text: two
invocations on the same text with different modification times produce
scenes equal in every field except `mtime`, and the parse result itself
does not depend on the metadata at all. -/
theorem c7_parse_pure_of_text (text path : String) (m₁ m₂ : ℚ) :
    sceneEqIgnoringMtime (parseSceneCore text path m₁)
      (parseSceneCore text path m₂) ∧
    (parseSceneCore text path m₁).result = runScene text :=
  ⟨⟨rfl, rfl, rfl⟩, rfl⟩

/-- Counterexample to C8: at a lone U+2028 none of the nine preceding
rules matches, yet the catch-all `/./` does not match either (JS `.`
excludes line terminators), so the character does **not** become an
`ERROR` token: the lexer throws its defensive `token not recognized`
error. -/
theorem c8_defensive_throw_reachable :
    ((List.range 9).all fun i => (matchRule i c8Cex).isNone) = true ∧
    ruleCatchAll c8Cex = none ∧
    nextToken c8Cex 0 = .error (.tokenNotRecognized 0) :=
  ⟨by decide, by decide, by decide⟩

/-- C10: `()` does not produce an `ARRAY` token — the parenthesized
argument rule requires at least one inner character (second conjunct),
so `()` lexes as separate `PARENTHESIS_OPEN`/`PARENTHESIS_CLOSE` tokens
(first conjunct); consequently `parseConstruct` fails on an identifier
followed by `()` (third conjunct), and `praseValue` instead parses such
input as a primitive identifier, leaving `()` unconsumed (final
conjunct). -/
theorem c10_empty_parens_no_array :
    lexTokens ("()".data) 4 0 =
      .ok [⟨.PARENTHESIS_OPEN, .str "(", "(", 0, 1, 1⟩,
           ⟨.PARENTHESIS_CLOSE, .str ")", ")", 1, 1, 2⟩,
           eofToken ("()".data)] ∧
    (∀ s r, ruleParenArgs s = some r →
      ∃ inner : List Char, 1 ≤ inner.length ∧
        r = .accept .ARRAY (.arr ((splitCommas inner).map classifyFragment))
            (inner.length + 2)) ∧
    (∀ (cs : List Char) (p p1 p2 : Nat) (tok t2 : Token),
      consumeT cs .IDENTIFIER p = .ok (tok, p1) →
      nextToken cs p1 = .ok (t2, p2) → t2.ttype = .PARENTHESIS_OPEN →
      parseConstruct cs p =
        .error (.unexpectedToken .ARRAY .PARENTHESIS_OPEN t2.pos t2.line t2.column)) ∧
    praseValue ("f()".data) 9 0 =
      .ok (tokenToResult ⟨.IDENTIFIER, .str "f", "f", 0, 1, 1⟩, 1) :=
  ⟨by decide, fun _ _ h => ruleParenArgs_some h,
   fun _ _ _ _ _ _ h1 h2 h3 => parseConstruct_no_array h1 h2 h3, rfl⟩

/-- Helper: when the whitespace rule fails, the first character is not
whitespace. -/
theorem ruleWs_none_head {c : Char} {rest : List Char}
    (h : ruleWs (c :: rest) = none) : isWsChar c = false := by
  by_cases hc : isWsChar c = true
  · exfalso
    simp [ruleWs, hc] at h
  · simpa using hc

/-- One `continue` step of the `_tokenize` rule loop on a failed match. -/
theorem runRulesFrom_none (cs : List Char) (left p i : Nat)
    (h : matchRule i (cs.drop p) = none) :
    runRulesFrom cs (left + 1) p i = runRulesFrom cs left p (i + 1) := by
  simp only [runRulesFrom, h]

/-- The accepting step of the `_tokenize` rule loop. -/
theorem runRulesFrom_accept (cs : List Char) (left p i : Nat)
    (t : TokenType) (v : JSValue) (len : Nat)
    (h : matchRule i (cs.drop p) = some (.accept t v len)) :
    runRulesFrom cs (left + 1) p i =
      .ok (some (mkToken cs p t v len, p + len)) := by
  simp only [runRulesFrom, h]

/-- C8 (amended): whenever a fresh token scan starts at a position where
the nine preceding rules all fail and the character there is not
U+2028/U+2029, the catch-all turns that single character into an `ERROR`
token carrying the diagnostic message and the lexer does not throw.  The
restriction is forced: at U+2028/U+2029 the catch-all `/./` fails too
(JS `.` excludes line terminators) and the defensive
`token not recognized` throw is reachable, as the counterexample
shows. -/
theorem c8_catch_all_error_token (cs : List Char) (p : Nat) (c : Char)
    (rest : List Char) (hd : cs.drop p = c :: rest)
    (h9 : ∀ i, i < 9 → matchRule i (cs.drop p) = none)
    (hn1 : c.toNat ≠ 0x2028) (hn2 : c.toNat ≠ 0x2029) :
    nextToken cs p =
      .ok (mkToken cs p .ERROR
        (.str ("Unexpected character: " ++ String.mk [c])) 1, p + 1) := by
  have hws : isWsChar c = false := by
    have h0 := h9 0 (by omega)
    rw [hd] at h0
    exact ruleWs_none_head h0
  have hjd : jsDot c = true := by
    have hc1 : c ≠ '\n' := fun h => by subst h; simp [isWsChar] at hws
    have hc2 : c ≠ '\r' := fun h => by subst h; simp [isWsChar] at hws
    simp [jsDot, hc1, hc2, hn1, hn2]
  have hcatch : matchRule 9 (cs.drop p) =
      some (.accept .ERROR
        (.str ("Unexpected character: " ++ String.mk [c])) 1) := by
    show ruleCatchAll (cs.drop p) = _
    rw [hd]
    unfold ruleCatchAll
    simp [hjd]
  have hp : p < cs.length := by
    have hlen := congrArg List.length hd
    rw [List.length_drop] at hlen
    simp only [List.length_cons] at hlen
    omega
  have s0 : runRules cs p = runRulesFrom cs 10 p 0 := rfl
  have s1 : runRulesFrom cs 10 p 0 = runRulesFrom cs 9 p 1 :=
    runRulesFrom_none cs 9 p 0 (h9 0 (by omega))
  have s2 : runRulesFrom cs 9 p 1 = runRulesFrom cs 8 p 2 :=
    runRulesFrom_none cs 8 p 1 (h9 1 (by omega))
  have s3 : runRulesFrom cs 8 p 2 = runRulesFrom cs 7 p 3 :=
    runRulesFrom_none cs 7 p 2 (h9 2 (by omega))
  have s4 : runRulesFrom cs 7 p 3 = runRulesFrom cs 6 p 4 :=
    runRulesFrom_none cs 6 p 3 (h9 3 (by omega))
  have s5 : runRulesFrom cs 6 p 4 = runRulesFrom cs 5 p 5 :=
    runRulesFrom_none cs 5 p 4 (h9 4 (by omega))
  have s6 : runRulesFrom cs 5 p 5 = runRulesFrom cs 4 p 6 :=
    runRulesFrom_none cs 4 p 5 (h9 5 (by omega))
  have s7 : runRulesFrom cs 4 p 6 = runRulesFrom cs 3 p 7 :=
    runRulesFrom_none cs 3 p 6 (h9 6 (by omega))
  have s8 : runRulesFrom cs 3 p 7 = runRulesFrom cs 2 p 8 :=
    runRulesFrom_none cs 2 p 7 (h9 7 (by omega))
  have s9 : runRulesFrom cs 2 p 8 = runRulesFrom cs 1 p 9 :=
    runRulesFrom_none cs 1 p 8 (h9 8 (by omega))
  have s10 : runRulesFrom cs 1 p 9 =
      .ok (some (mkToken cs p .ERROR
        (.str ("Unexpected character: " ++ String.mk [c])) 1, p + 1)) :=
    runRulesFrom_accept cs 0 p 9 .ERROR
      (.str ("Unexpected character: " ++ String.mk [c])) 1 hcatch
  have hrun := s0.trans (s1.trans (s2.trans (s3.trans (s4.trans (s5.trans
    (s6.trans (s7.trans (s8.trans (s9.trans s10)))))))))
  unfold nextToken
  rw [if_neg (by omega), hrun]

/-- Witness for C8 (amended) at the character `@`: no rule before the
catch-all matches `@`, and it becomes an `ERROR` token. -/
theorem c8_catch_all_error_token_witness :
    nextToken ['@'] 0 =
      .ok (mkToken ['@'] 0 .ERROR
        (.str ("Unexpected character: " ++ String.mk ['@'])) 1, 1) :=
  c8_catch_all_error_token ['@'] 0 '@' [] rfl (by decide) (by decide)
    (by decide)

/-- Counterexample to C2: parsing the dictionary `{"a": 1}` succeeds,
its single entry's *value* has text `1`, yet the production's `text`
field is `{"a"}` — it joins only the quoted keys, so the character `1`
does not occur in it at all: value content is lost. -/
theorem c2_dictionary_text_drops_values :
    praseValue c2CexInput.data (FUEL c2CexInput.data) 0 =
      .ok (valueResult c2CexInput, 8) ∧
    (valueResult c2CexInput).text = "\x7b\"a\"\x7d" ∧
    dictEntryTexts (valueResult c2CexInput) = ["1"] ∧
    ('1' ∉ "\x7b\"a\"\x7d".data) :=
  ⟨rfl, rfl, rfl, by decide⟩

/-- C2 (amended): whenever `parseArray` succeeds its `text` joins the
element results' texts with `", "` inside brackets — source-equivalent,
as the claim states; but whenever `parseDictionary` succeeds its `text`
joins **only the quoted keys** with `","` inside braces and the entry
values' texts are discarded. -/
theorem c2_value_text_reconstruction (cs : List Char) (fuel p : Nat) :
    (∀ r p', parseArray cs fuel p = .ok (r, p') →
      ∃ elems, r.value = .arrP elems ∧
        r.text = "[" ++ String.intercalate ", " (elems.map PResult.text) ++ "]") ∧
    (∀ r p', parseDictionary cs fuel p = .ok (r, p') →
      ∃ entries, r.value = .dictP entries ∧
        r.text = "\x7b" ++ String.intercalate ","
          (entries.map fun e => "\"" ++ jsToString e.1 ++ "\"") ++ "\x7d") := by
  cases fuel with
  | zero =>
    refine ⟨fun r p' h => ?_, fun r p' h => ?_⟩ <;>
      simp [parseArray, parseDictionary, vp] at h
  | succ f =>
    constructor
    · intro r p' h
      unfold parseArray vp at h
      simp only at h
      cases h1 : consumeT cs .BRACKET_OPEN p with
      | error e => rw [h1, exbind_err] at h; cases h
      | ok v1 =>
        obtain ⟨tok, p1⟩ := v1
        rw [h1, exbind_ok] at h
        cases h2 : (vp cs f).arrLoop p1 with
        | error e =>
          rw [h2, exbind_err] at h; cases h
        | ok v2 =>
          obtain ⟨elems, p2⟩ := v2
          rw [h2, exbind_ok] at h
          cases h3 : consumeT cs .BRACKET_CLOSE p2 with
          | error e => rw [h3, exbind_err] at h; cases h
          | ok v3 =>
            obtain ⟨tok3, p3⟩ := v3
            rw [h3, exbind_ok] at h
            cases h
            exact ⟨elems, rfl, rfl⟩
    · intro r p' h
      unfold parseDictionary vp at h
      simp only at h
      cases h1 : consumeT cs .CURLY_BRACKET_OPEN p with
      | error e => rw [h1, exbind_err] at h; cases h
      | ok v1 =>
        obtain ⟨tok, p1⟩ := v1
        rw [h1, exbind_ok] at h
        cases h2 : (vp cs f).dictLoop [] p1 with
        | error e =>
          rw [h2, exbind_err] at h; cases h
        | ok v2 =>
          obtain ⟨entries, p2⟩ := v2
          rw [h2, exbind_ok] at h
          cases h3 : consumeT cs .CURLY_BRACKET_CLOSE p2 with
          | error e => rw [h3, exbind_err] at h; cases h
          | ok v3 =>
            obtain ⟨tok3, p3⟩ := v3
            rw [h3, exbind_ok] at h
            cases h
            exact ⟨entries, rfl, rfl⟩

/-- Witness for C2 (amended), at `[1, 2]` and `{"a": 1}`: the array text
re-joins the element texts `1`, `2`; the dictionary text keeps only the
quoted key `"a"`. -/
theorem c2_value_text_reconstruction_witness :
    (∃ elems, (valueResult "[1, 2]").value = .arrP elems ∧
      (valueResult "[1, 2]").text =
        "[" ++ String.intercalate ", " (elems.map PResult.text) ++ "]") ∧
    (∃ entries, (valueResult c2CexInput).value = .dictP entries ∧
      (valueResult c2CexInput).text =
        "\x7b" ++ String.intercalate ","
          (entries.map fun e => "\"" ++ jsToString e.1 ++ "\"") ++ "\x7d") :=
  ⟨(c2_value_text_reconstruction ("[1, 2]".data) 39 0).1
     (valueResult "[1, 2]") 6 rfl,
   (c2_value_text_reconstruction c2CexInput.data 47 0).2
     (valueResult c2CexInput) 8 rfl⟩

/-- Helper for C9: resolving an `instance` field whose first element's
id has no `externalResources` entry throws the TypeError of reading
`.path` off `undefined`. -/
theorem resolveInstance_missing (s : SceneState) (v : JSPrim)
    (vs : List JSPrim)
    (hmiss : resGet s.externalResources (jsPrimToString v) = none) :
    resolveInstance s (.js (.arr (v :: vs))) =
      .error (.typeError "Cannot read properties of undefined (reading 'path')") := by
  unfold resolveInstance
  rw [if_pos (by simp [instLenPos, pLength])]
  cases v with
  | num x =>
    show (Except.ok (PVal.js (.num x)) >>= _) = _
    rw [exbind_ok]
    show (match resGet s.externalResources (pToString (.js (.num x))) with
      | none => _ | some res => _) = _
    have : pToString (PVal.js (.num x)) = jsPrimToString (.num x) := rfl
    rw [this, hmiss]
  | str x =>
    show (Except.ok (PVal.js (.str x)) >>= _) = _
    rw [exbind_ok]
    show (match resGet s.externalResources (pToString (.js (.str x))) with
      | none => _ | some res => _) = _
    have : pToString (PVal.js (.str x)) = jsPrimToString (.str x) := rfl
    rw [this, hmiss]

/-- C9: a `node` tag carrying an `instance` field whose first element is
an id with no entry in the `externalResources` built so far makes the
node branch throw a TypeError at the point of lookup (reading `.path`
of `undefined`) — the parse aborts rather than degrading the node's
`resourcePath`/`tooltip` to a placeholder.  (`hpath` states that path
resolution before the lookup succeeded, which it does whenever the tag
is the root or names an existing root.) -/
theorem c9_missing_instance_throws (s : SceneState) (tag : TagD)
    (props : List PResult) (body : String) (v : JSPrim) (vs : List JSPrim)
    (pv : PVal × PVal × PVal)
    (hinst : tagGetField tag "instance" = .js (.arr (v :: vs)))
    (hpath : resolveNodePath s (tagGetField tag "name")
      (tagGetField tag "parent") = .ok pv)
    (hmiss : resGet s.externalResources (jsPrimToString v) = none) :
    handleNodeTag s tag props body =
      .error (.typeError "Cannot read properties of undefined (reading 'path')") := by
  obtain ⟨pa, pb, pc⟩ := pv
  unfold handleNodeTag
  rw [hpath, exbind_ok]
  show (resolveInstance s (tagGetField tag "instance") >>= _) = _
  rw [hinst, resolveInstance_missing s v vs hmiss]
  rfl

/-- Witness for C9: on `[node name="A" instance=ExtResource("9")]` with
no declared resources, the node branch throws, and the whole parse is
aborted by that TypeError with nothing committed. -/
theorem c9_missing_instance_throws_witness :
    handleNodeTag initState
      ({ name := .str "node",
         fields := [("name", .js (.str "A")),
                    ("instance", .js (.arr [.str "9"]))],
         text := c9Input, line := 1, pos := 0 }) [] c9Input =
      .error (.typeError "Cannot read properties of undefined (reading 'path')") ∧
    runScene c9Input =
      .error (.typeError "Cannot read properties of undefined (reading 'path')",
              initState) :=
  ⟨c9_missing_instance_throws initState _ [] c9Input (.str "9") []
     (.js .undef, .js (.str "A"), .js (.str "A")) rfl rfl rfl,
   rfl⟩

/-- C5: `praseValue` is exactly the `alternatives` run of its four
sub-parses in the fixed order construct, primitive, array, dictionary:
a successful alternative's result is returned as is; each failed
alternative restores the saved offset before the next is tried (every
sub-parse below runs from the same `p`); and the parse fails overall
exactly when all four alternatives fail (final conjunct, as a boolean
equation). -/
theorem c5_prase_value_order (cs : List Char) (fuel p : Nat) :
    praseValue cs (fuel + 1) p =
      alternatives
        [parseConstruct cs,
         fun q => (parsePrimitive cs q).map (fun x => (tokenToResult x.1, x.2)),
         parseArray cs fuel, parseDictionary cs fuel] p ∧
    (∀ r, parseConstruct cs p = .ok r → praseValue cs (fuel + 1) p = .ok r) ∧
    (∀ e tok q, parseConstruct cs p = .error e →
      parsePrimitive cs p = .ok (tok, q) →
      praseValue cs (fuel + 1) p = .ok (tokenToResult tok, q)) ∧
    (∀ e e' r, parseConstruct cs p = .error e →
      parsePrimitive cs p = .error e' →
      parseArray cs fuel p = .ok r → praseValue cs (fuel + 1) p = .ok r) ∧
    (∀ e e' e'', parseConstruct cs p = .error e →
      parsePrimitive cs p = .error e' → parseArray cs fuel p = .error e'' →
      praseValue cs (fuel + 1) p = parseDictionary cs fuel p) ∧
    (isOkE (praseValue cs (fuel + 1) p) =
      (isOkE (parseConstruct cs p) || isOkE (parsePrimitive cs p) ||
       isOkE (parseArray cs fuel p) || isOkE (parseDictionary cs fuel p))) := by
  have hv : praseValue cs (fuel + 1) p =
      match parseConstruct cs p with
      | .ok r => .ok r
      | .error _ =>
        match (parsePrimitive cs p).map (fun q => (tokenToResult q.1, q.2)) with
        | .ok r => .ok r
        | .error _ =>
          match parseArray cs fuel p with
          | .ok r => .ok r
          | .error _ => parseDictionary cs fuel p := rfl
  refine ⟨?_, ?_, ?_, ?_, ?_, ?_⟩
  · rw [hv]
    cases hc : parseConstruct cs p with
    | ok r => simp [alternatives, hc]
    | error e =>
      cases hm : parsePrimitive cs p with
      | ok r => simp [alternatives, hc, hm, Except.map]
      | error e' =>
        cases ha : parseArray cs fuel p with
        | ok r => simp [alternatives, hc, hm, ha, Except.map]
        | error e'' => simp [alternatives, hc, hm, ha, Except.map]
  · intro r hc
    rw [hv, hc]
  · intro e tok q hc hm
    rw [hv, hc, hm]
    rfl
  · intro e e' r hc hm ha
    rw [hv, hc, hm, ha]
    rfl
  · intro e e' e'' hc hm ha
    rw [hv, hc, hm, ha]
    rfl
  · rw [hv]
    cases hc : parseConstruct cs p with
    | ok r => simp [isOkE, hc]
    | error e =>
      cases hm : parsePrimitive cs p with
      | ok r => simp [isOkE, hm, Except.map]
      | error e' =>
        cases ha : parseArray cs fuel p with
        | ok r => simp [isOkE, ha, Except.map]
        | error e'' =>
          cases hd : parseDictionary cs fuel p with
          | ok r => simp [isOkE, hd, Except.map]
          | error e3 => simp [isOkE, hd, Except.map]

/-- Witness for C5 at concrete inputs: on `V(1)` the construct
alternative succeeds and `praseValue` returns its result; on `f()` the
construct alternative fails and `praseValue` returns the primitive
identifier from the restored offset. -/
theorem c5_prase_value_order_witness :
    praseValue ("V(1)".data) 21 0 =
      .ok (.mk (.str "V") (.str "V") (.js (.arr [.num (some 1)]))
        "V(1)" 1, 4) ∧
    praseValue ("f()".data) 21 0 =
      .ok (tokenToResult ⟨.IDENTIFIER, .str "f", "f", 0, 1, 1⟩, 1) :=
  ⟨(c5_prase_value_order ("V(1)".data) 20 0).2.1 _ rfl,
   (c5_prase_value_order ("f()".data) 20 0).2.2.1
     (.unexpectedToken .ARRAY .PARENTHESIS_OPEN 1 1 2)
     ⟨.IDENTIFIER, .str "f", "f", 0, 1, 1⟩ 1 rfl rfl⟩

/-- Counterexample to C6: after parsing two `[node name="B" parent="."]`
tags under the same root, the parse completes without error, the root's
children list holds two distinct reachable nodes (store indices 1 and 2)
that share the absolute path `A/B` — absolute paths are **not** unique —
and the `nodes` map holds only two entries for the three reachable
nodes, so node 1 appears in the tree but under its path the map stores
node 2. -/
theorem c6_duplicate_path_breaks_uniqueness :
    runScene c6Cex = .ok (endScene c6Cex) ∧
    childrenAt (endScene c6Cex) 0 = [1, 2] ∧
    reachIds (endScene c6Cex) = [0, 1, 2] ∧
    (reachIds (endScene c6Cex)).map (nodePathAt (endScene c6Cex)) =
      [.js (.str "A"), .js (.str "A/B"), .js (.str "A/B")] ∧
    nodupPB ((reachIds (endScene c6Cex)).map (nodePathAt (endScene c6Cex))) =
      false ∧
    (endScene c6Cex).nodes =
      [(.js (.str "A"), 0), (.js (.str "A/B"), 2)] :=
  ⟨rfl, rfl, rfl, rfl, rfl, rfl⟩

/-! ### Reachability lemmas for C6 -/

/-- Elements reached from `id` lie in `[id, store.length)` when children
point strictly forward. -/
theorem reachF_bounds (store : List SceneNodeD)
    (hcr : ∀ i, i < store.length → ∀ c ∈ childrenOf store i,
      i < c ∧ c < store.length) :
    ∀ f id x, id < store.length → x ∈ reachF store f id →
      id ≤ x ∧ x < store.length := by
  intro f
  induction f with
  | zero => intro id x _ hx; simp [reachF] at hx
  | succ f ih =>
    intro id x hid hx
    simp only [reachF, List.mem_cons] at hx
    rcases hx with rfl | hx
    · exact ⟨le_refl _, hid⟩
    · rw [List.mem_flatten] at hx
      obtain ⟨l, hl, hxl⟩ := hx
      rw [List.mem_map] at hl
      obtain ⟨c, hc, rfl⟩ := hl
      obtain ⟨hic, hcl⟩ := hcr id hid c hc
      obtain ⟨h1, h2⟩ := ih c x hcl hxl
      exact ⟨by omega, h2⟩

/-- Any two sufficient fuels produce the same reach list. -/
theorem reachF_stable (store : List SceneNodeD)
    (hcr : ∀ i, i < store.length → ∀ c ∈ childrenOf store i,
      i < c ∧ c < store.length) :
    ∀ d f g id, id < store.length → store.length - id ≤ d →
      store.length - id ≤ f → store.length - id ≤ g →
      reachF store f id = reachF store g id := by
  intro d
  induction d with
  | zero => intro f g id hid hd _ _; exfalso; omega
  | succ d ih =>
    intro f g id hid hdd hf hg
    obtain ⟨f', rfl⟩ : ∃ f', f = f' + 1 := ⟨f - 1, by omega⟩
    obtain ⟨g', rfl⟩ : ∃ g', g = g' + 1 := ⟨g - 1, by omega⟩
    simp only [reachF]
    congr 1
    apply congrArg
    apply List.map_congr_left
    intro c hc
    obtain ⟨hic, hcl⟩ := hcr id hid c hc
    exact ih f' g' c hcl (by omega) (by omega) (by omega)

/-- Appending a node to the store does not change reach lists of
existing nodes. -/
theorem reachF_append (store : List SceneNodeD) (nd : SceneNodeD)
    (hcr : ∀ i, i < store.length → ∀ c ∈ childrenOf store i,
      i < c ∧ c < store.length) :
    ∀ f id, id < store.length →
      reachF (store ++ [nd]) f id = reachF store f id := by
  intro f
  induction f with
  | zero => intro id _; rfl
  | succ f ih =>
    intro id hid
    have hch : childrenOf (store ++ [nd]) id = childrenOf store id := by
      unfold childrenOf
      rw [List.getD_append _ _ _ _ hid]
    simp only [reachF, hch]
    congr 1
    apply congrArg
    apply List.map_congr_left
    intro c hc
    exact ih c (hcr id hid c hc).2

/-- `List.getD` through `getElem?`. -/
theorem getD_as_getElem? (l : List SceneNodeD) (i : Nat) (d : SceneNodeD) :
    l.getD i d = (l[i]?).getD d := by
  rw [List.getD_eq_getD_get?, List.get?_eq_getElem?]

/-- `pushChildAt` at an in-range index, in `List.set` form. -/
theorem pushChildAt_eq (store : List SceneNodeD) (pid n : Nat)
    (h : pid < store.length) :
    pushChildAt store pid n =
      store.set pid { store.getD pid dfltNode with
        children := childrenOf store pid ++ [n] } := by
  unfold pushChildAt
  have hg : store.get? pid = some (store.getD pid dfltNode) := by
    rw [List.get?_eq_getElem?, List.getElem?_eq_getElem h,
      getD_as_getElem?, List.getElem?_eq_getElem h]
    rfl
  rw [hg]
  rfl

theorem pushChildAt_length (store : List SceneNodeD) (pid n : Nat) :
    (pushChildAt store pid n).length = store.length := by
  unfold pushChildAt
  cases store.get? pid with
  | none => rfl
  | some nd => simp

/-- `getD` after a `set`. -/
theorem getD_set (store : List SceneNodeD) (i : Nat) (nd : SceneNodeD)
    (j : Nat) :
    (store.set i nd).getD j dfltNode =
      if i = j ∧ i < store.length then nd
      else store.getD j dfltNode := by
  induction store generalizing i j with
  | nil => simp
  | cons x xs ih =>
    cases i with
    | zero =>
      cases j with
      | zero => simp
      | succ j => simp
    | succ i =>
      cases j with
      | zero => simp
      | succ j =>
        simp only [List.set_cons_succ, List.getD_cons_succ, ih i j,
          List.length_cons]
        by_cases hc : i = j ∧ i < xs.length
        · rw [if_pos hc, if_pos (by omega)]
        · rw [if_neg hc, if_neg (by omega)]

/-- `pushChildAt` keeps every node's path. -/
theorem pathOf_pushChildAt (store : List SceneNodeD) (pid n i : Nat) :
    pathOf (pushChildAt store pid n) i = pathOf store i := by
  by_cases h : pid < store.length
  · rw [pushChildAt_eq store pid n h]
    unfold pathOf
    rw [getD_set]
    by_cases hip : pid = i
    · subst hip
      rw [if_pos ⟨rfl, h⟩]
    · rw [if_neg (by tauto)]
  · unfold pushChildAt
    have hn : store.get? pid = none := by
      rw [List.get?_eq_getElem?, List.getElem?_eq_none (by omega)]
    rw [hn]

/-- Children after a push: the target gains `n` at the end, others are
unchanged. -/
theorem childrenOf_pushChildAt (store : List SceneNodeD) (pid n i : Nat)
    (h : pid < store.length) :
    childrenOf (pushChildAt store pid n) i =
      if i = pid then childrenOf store pid ++ [n] else childrenOf store i := by
  rw [pushChildAt_eq store pid n h]
  unfold childrenOf
  rw [getD_set]
  by_cases hip : i = pid
  · subst hip
    rw [if_pos ⟨rfl, h⟩, if_pos rfl]
  · rw [if_neg (by tauto), if_neg hip]

/-- Counting over a flattened map. -/
theorem count_flatten_map (f : Nat → List Nat) (l : List Nat) (x : Nat) :
    ((l.map f).flatten).count x = (l.map fun c => (f c).count x).sum := by
  induction l with
  | nil => rfl
  | cons c cl ih => simp [List.count_append, ih]

theorem sum_map_add (l : List Nat) (f g : Nat → Nat) :
    (l.map fun c => f c + g c).sum = (l.map f).sum + (l.map g).sum := by
  induction l with
  | nil => rfl
  | cons c cl ih => simp only [List.map_cons, List.sum_cons, ih]; omega

/-- Counting reach-list elements after pushing the fresh index
`n = store.length` into `pid`'s children and appending the new node:
every old count is kept, and the fresh index is reached exactly once per
occurrence of `pid`. -/
theorem count_reachF_push (store : List SceneNodeD) (pid : Nat)
    (nd : SceneNodeD) (hnd : nd.children = [])
    (hcr : ∀ i, i < store.length → ∀ c ∈ childrenOf store i,
      i < c ∧ c < store.length)
    (hpid : pid < store.length) :
    ∀ d id x, id < store.length → store.length - id ≤ d →
      (reachF (pushChildAt store pid store.length ++ [nd]) (d + 2) id).count x =
        (reachF store (d + 1) id).count x +
          (if x = store.length
           then (reachF store (d + 1) id).count pid else 0) := by
  have hch : ∀ id, id < store.length →
      childrenOf (pushChildAt store pid store.length ++ [nd]) id =
        childrenOf store id ++ (if id = pid then [store.length] else []) := by
    intro id hid
    have h1 : childrenOf (pushChildAt store pid store.length ++ [nd]) id =
        childrenOf (pushChildAt store pid store.length) id := by
      unfold childrenOf
      rw [List.getD_append _ _ _ _ (by rw [pushChildAt_length]; omega)]
    rw [h1, childrenOf_pushChildAt store pid store.length id hpid]
    by_cases hip : id = pid
    · subst hip; simp
    · simp [hip]
  have hreach_n : ∀ f,
      reachF (pushChildAt store pid store.length ++ [nd]) (f + 1)
        store.length = [store.length] := by
    intro f
    have hcn : childrenOf (pushChildAt store pid store.length ++ [nd])
        store.length = [] := by
      unfold childrenOf
      rw [getD_as_getElem?,
        List.getElem?_append_right (by rw [pushChildAt_length])]
      rw [pushChildAt_length]
      simp [hnd]
    simp [reachF, hcn]
  have unfold1 : ∀ (S : List SceneNodeD) (f id : Nat),
      reachF S (f + 1) id =
        id :: ((childrenOf S id).map (reachF S f)).flatten :=
    fun _ _ _ => rfl
  intro d
  induction d with
  | zero => intro id x hid hd; exfalso; omega
  | succ d ih =>
    intro id x hid hd
    have e1 : reachF (pushChildAt store pid store.length ++ [nd])
        (d + 1 + 2) id =
        id :: ((childrenOf (pushChildAt store pid store.length ++ [nd]) id).map
          (reachF (pushChildAt store pid store.length ++ [nd]) (d + 2))).flatten :=
      unfold1 _ (d + 2) id
    have e2 : reachF store (d + 1 + 1) id =
        id :: ((childrenOf store id).map (reachF store (d + 1))).flatten :=
      unfold1 _ (d + 1) id
    have hextra : (((if id = pid then [store.length] else []).map
        (reachF (pushChildAt store pid store.length ++ [nd])
          (d + 2))).flatten).count x =
        (if id = pid then (if x = store.length then 1 else 0) else 0) := by
      by_cases hip : id = pid
      · rw [if_pos hip, if_pos hip]
        simp only [List.map_cons, List.map_nil, List.flatten_cons,
          List.flatten_nil, List.append_nil]
        rw [show d + 2 = (d + 1) + 1 from rfl, hreach_n (d + 1)]
        rw [List.count_singleton']
        by_cases hx : x = store.length
        · simp [hx]
        · simp [hx, Ne.symm hx]
      · rw [if_neg hip, if_neg hip]
        rfl
    rw [e1, e2, hch id hid]
    simp only [List.map_append, List.flatten_append, List.count_cons,
      List.count_append, beq_iff_eq]
    rw [hextra]
    simp only [count_flatten_map]
    have hmap : (childrenOf store id).map
        (fun c => ((reachF (pushChildAt store pid store.length ++ [nd])
          (d + 2) c).count x)) =
        (childrenOf store id).map
          (fun c => (reachF store (d + 1) c).count x +
            (if x = store.length
             then (reachF store (d + 1) c).count pid else 0)) := by
      apply List.map_congr_left
      intro c hc
      obtain ⟨h1, h2⟩ := hcr id hid c hc
      exact ih c x h2 (by omega)
    rw [hmap, sum_map_add]
    have hsum_ite : ((childrenOf store id).map
        (fun c => if x = store.length
          then (reachF store (d + 1) c).count pid else 0)).sum =
        if x = store.length
        then ((childrenOf store id).map
          (fun c => (reachF store (d + 1) c).count pid)).sum else 0 := by
      by_cases hx : x = store.length
      · rw [if_pos hx]
        apply congrArg
        apply List.map_congr_left
        intro c _
        rw [if_pos hx]
      · rw [if_neg hx]
        simp [hx]
    rw [hsum_ite]
    by_cases hx : x = store.length
    · subst hx
      have hidx : ¬ (id = store.length) := by omega
      simp only [hidx]
      simp
      omega
    · simp [hx]

/-- Keys that compare equal under SameValueZero are structurally
equal (the converse fails for objects, which compare by reference). -/
theorem sameValueZero_eq {a b : PVal} (h : sameValueZero a b = true) :
    a = b := by
  cases a with
  | js va =>
    cases b with
    | js vb =>
      unfold sameValueZero at h
      cases va <;> cases vb <;> simp_all
    | arrP xs => cases h
    | dictP es => cases h
    | obj r => cases h
  | arrP xs => cases h
  | dictP es => cases h
  | obj r => cases h

theorem sameValueZero_symm (a b : PVal) :
    sameValueZero a b = sameValueZero b a := by
  cases a with
  | js va =>
    cases b with
    | js vb =>
      unfold sameValueZero
      cases va <;> cases vb <;> simp_all <;> exact eq_comm
    | arrP xs => rfl
    | dictP es => rfl
    | obj r => rfl
  | arrP xs => cases b <;> rfl
  | dictP es => cases b <;> rfl
  | obj r => cases b <;> rfl

/-- A `Map.get` hit names an entry of the map. -/
theorem getNodeKV_mem (m : List (PVal × Nat)) (k : PVal) (v : Nat)
    (h : getNodeKV m k = some v) : ∃ k', (k', v) ∈ m := by
  induction m with
  | nil => cases h
  | cons e rest ih =>
    obtain ⟨k', v'⟩ := e
    unfold getNodeKV at h
    by_cases hs : sameValueZero k' k = true
    · rw [if_pos hs] at h
      cases h
      exact ⟨k', List.mem_cons_self _ _⟩
    · rw [if_neg hs] at h
      obtain ⟨k0, hk0⟩ := ih h
      exact ⟨k0, List.mem_cons_of_mem _ hk0⟩

/-- Membership after `Map.set`: an old entry, an updated entry at a
SameValueZero-equal key, or the appended fresh entry. -/
theorem mem_setNodeKV (m : List (PVal × Nat)) (k : PVal) (v : Nat) :
    ∀ e ∈ setNodeKV m k v,
      e ∈ m ∨ (sameValueZero e.1 k = true ∧ e.2 = v) ∨ e = (k, v) := by
  induction m with
  | nil =>
    intro e he
    unfold setNodeKV at he
    simp at he
    subst he
    right; right; rfl
  | cons e0 rest ih =>
    obtain ⟨k0, v0⟩ := e0
    intro e he
    unfold setNodeKV at he
    by_cases hs : sameValueZero k0 k = true
    · rw [if_pos hs] at he
      rcases List.mem_cons.mp he with rfl | hrest
      · right; left; exact ⟨hs, rfl⟩
      · left; exact List.mem_cons_of_mem _ hrest
    · rw [if_neg hs] at he
      rcases List.mem_cons.mp he with rfl | hrest
      · left; exact List.mem_cons_self _ _
      · rcases ih e hrest with h1 | h2 | h3
        · left; exact List.mem_cons_of_mem _ h1
        · right; left; exact h2
        · right; right; exact h3

/-- When the key is SameValueZero-fresh, `Map.set` appends. -/
theorem setNodeKV_fresh (m : List (PVal × Nat)) (k : PVal) (v : Nat)
    (h : ∀ e ∈ m, sameValueZero e.1 k = false) :
    setNodeKV m k v = m ++ [(k, v)] := by
  induction m with
  | nil => rfl
  | cons e0 rest ih =>
    obtain ⟨k0, v0⟩ := e0
    unfold setNodeKV
    rw [if_neg (by simpa using h (k0, v0) (List.mem_cons_self _ _))]
    rw [ih (fun e he => h e (List.mem_cons_of_mem _ he))]
    rfl

/-- A prefix of a SameValueZero-distinct list is SameValueZero-distinct. -/
theorem nodupPB_append_left (a b : List PVal)
    (h : nodupPB (a ++ b) = true) : nodupPB a = true := by
  induction a with
  | nil => rfl
  | cons x xs ih =>
    simp only [List.cons_append, nodupPB, Bool.and_eq_true] at h ⊢
    obtain ⟨h1, h2⟩ := h
    refine ⟨?_, ih h2⟩
    rw [List.all_eq_true] at h1 ⊢
    intro y hy
    exact h1 y (List.mem_append_left _ hy)

/-- The last element of a SameValueZero-distinct list is fresh for the
prefix. -/
theorem nodupPB_last_fresh (l : List PVal) (a : PVal)
    (h : nodupPB (l ++ [a]) = true) :
    ∀ y ∈ l, sameValueZero y a = false := by
  induction l with
  | nil => intro y hy; cases hy
  | cons x xs ih =>
    intro y hy
    simp only [List.cons_append, nodupPB, Bool.and_eq_true] at h
    obtain ⟨h1, h2⟩ := h
    rcases List.mem_cons.mp hy with rfl | hxs
    · rw [List.all_eq_true] at h1
      have := h1 a (List.mem_append_right _ (List.mem_cons_self _ _))
      simpa using this
    · exact ih h2 y hxs

/-- Distinctness of elements at distinct positions. -/
theorem nodupPB_getD_ne (l : List PVal) (h : nodupPB l = true) :
    ∀ i j, i < j → j < l.length →
      sameValueZero (l.getD i (.js .undef)) (l.getD j (.js .undef)) = false := by
  induction l with
  | nil => intro i j _ hj; simp at hj
  | cons x xs ih =>
    intro i j hij hj
    simp only [nodupPB, Bool.and_eq_true] at h
    obtain ⟨h1, h2⟩ := h
    cases i with
    | zero =>
      cases j with
      | zero => omega
      | succ j =>
        rw [List.all_eq_true] at h1
        have hjx : j < xs.length := by simpa using hj
        have hmem : xs.getD j (.js .undef) ∈ xs := by
          rw [List.getD_eq_getD_get?, List.get?_eq_getElem?,
            List.getElem?_eq_getElem hjx, Option.getD_some]
          exact List.getElem_mem hjx
        have := h1 _ hmem
        simpa using this
    | succ i =>
      cases j with
      | zero => omega
      | succ j =>
        simpa using ih h2 i j (by omega) (by simpa using hj)

/-- The store entry appended last. -/
theorem getD_append_last (store : List SceneNodeD) (nd : SceneNodeD) :
    (store ++ [nd]).getD store.length dfltNode = nd := by
  rw [getD_as_getElem?, List.getElem?_append_right (le_refl _)]
  simp

theorem childrenOf_append_last (store : List SceneNodeD) (nd : SceneNodeD) :
    childrenOf (store ++ [nd]) store.length = nd.children := by
  unfold childrenOf
  rw [getD_append_last]

theorem pathOf_append_last (store : List SceneNodeD) (nd : SceneNodeD) :
    pathOf (store ++ [nd]) store.length = nd.path := by
  unfold pathOf
  rw [getD_append_last]

theorem childrenOf_append_lt (store : List SceneNodeD) (nd : SceneNodeD)
    (i : Nat) (h : i < store.length) :
    childrenOf (store ++ [nd]) i = childrenOf store i := by
  unfold childrenOf
  rw [List.getD_append _ _ _ _ h]

theorem pathOf_append_lt (store : List SceneNodeD) (nd : SceneNodeD)
    (i : Nat) (h : i < store.length) :
    pathOf (store ++ [nd]) i = pathOf store i := by
  unfold pathOf
  rw [List.getD_append _ _ _ _ h]

theorem storePaths_congr (store1 store2 : List SceneNodeD)
    (hlen : store1.length = store2.length)
    (hp : ∀ i, pathOf store1 i = pathOf store2 i) :
    store1.map SceneNodeD.path = store2.map SceneNodeD.path := by
  apply List.ext_getElem (by simpa using hlen)
  intro i h1 h2
  have h1' : i < store1.length := by simpa using h1
  have h2' : i < store2.length := by simpa using h2
  rw [List.getElem_map, List.getElem_map]
  have e1 : store1[i] = store1.getD i dfltNode := by
    rw [getD_as_getElem?, List.getElem?_eq_getElem h1', Option.getD_some]
  have e2 : store2[i] = store2.getD i dfltNode := by
    rw [getD_as_getElem?, List.getElem?_eq_getElem h2', Option.getD_some]
  rw [e1, e2]
  exact hp i

/-- The effect of committing one node on the growing scene: all
invariants survive, the committed paths gain exactly the new node's
path, and — when all committed paths stay SameValueZero-distinct — the
`nodes` map stays the exact path-indexed association. -/
theorem mkState_inv (s : SceneState) (node : SceneNodeD) (pAbs : PVal)
    (store1 : List SceneNodeD) (root1 : Option Nat)
    (hI : Inv s) (hch : node.children = []) (hpath : node.path = pAbs)
    (hstore : store1 = s.store ∨
      ∃ pid, pid < s.store.length ∧
        store1 = pushChildAt s.store pid s.store.length)
    (hroot : (root1 = some s.store.length ∧ store1 = s.store) ∨
      root1 = s.root) :
    Inv (commitState s store1 node pAbs root1) ∧
    storePaths (commitState s store1 node pAbs root1) =
      storePaths s ++ [pAbs] ∧
    (nodupPB (storePaths s ++ [pAbs]) = true → NodesExact s →
      NodesExact (commitState s store1 node pAbs root1)) := by
  unfold commitState
  have hlen1 : store1.length = s.store.length := by
    rcases hstore with rfl | ⟨pid, hpid, rfl⟩
    · rfl
    · exact pushChildAt_length _ _ _
  have hpaths1 : ∀ i, pathOf store1 i = pathOf s.store i := by
    intro i
    rcases hstore with rfl | ⟨pid, hpid, rfl⟩
    · rfl
    · exact pathOf_pushChildAt _ _ _ _
  have hcr1 : ∀ i, i < s.store.length → ∀ c ∈ childrenOf store1 i,
      i < c ∧ c < s.store.length + 1 := by
    intro i hi c hc
    rcases hstore with rfl | ⟨pid, hpid, rfl⟩
    · obtain ⟨h1, h2⟩ := hI.children_range i hi c hc
      exact ⟨h1, by omega⟩
    · rw [childrenOf_pushChildAt _ _ _ _ hpid] at hc
      by_cases hip : i = pid
      · rw [if_pos hip] at hc
        rcases List.mem_append.mp hc with hold | hnew
        · obtain ⟨h1, h2⟩ := hI.children_range i hi c (by rw [hip]; exact hold)
          exact ⟨h1, by omega⟩
        · have : c = s.store.length := by simpa using hnew
          subst this
          exact ⟨by omega, by omega⟩
      · rw [if_neg hip] at hc
        obtain ⟨h1, h2⟩ := hI.children_range i hi c hc
        exact ⟨h1, by omega⟩
  have hchl : ∀ i, i < s.store.length →
      childrenOf (store1 ++ [node]) i = childrenOf store1 i := by
    intro i hi
    exact childrenOf_append_lt _ _ _ (by omega)
  have hchlast : childrenOf (store1 ++ [node]) s.store.length = [] := by
    have := childrenOf_append_last store1 node
    rw [hlen1] at this
    rw [this, hch]
  have hplast : pathOf (store1 ++ [node]) s.store.length = pAbs := by
    have := pathOf_append_last store1 node
    rw [hlen1] at this
    rw [this, hpath]
  have hplt : ∀ i, i < s.store.length →
      pathOf (store1 ++ [node]) i = pathOf s.store i := by
    intro i hi
    rw [pathOf_append_lt _ _ _ (by omega), hpaths1]
  have hlen' : (store1 ++ [node]).length = s.store.length + 1 := by
    simp [hlen1]
  have hcr' : ∀ i, i < (store1 ++ [node]).length →
      ∀ c ∈ childrenOf (store1 ++ [node]) i,
        i < c ∧ c < (store1 ++ [node]).length := by
    intro i hi c hc
    rw [hlen'] at hi ⊢
    by_cases hil : i < s.store.length
    · rw [hchl i hil] at hc
      exact hcr1 i hil c hc
    · have : i = s.store.length := by omega
      subst this
      rw [hchlast] at hc
      cases hc
  have hpaths' : storePaths (commitState s store1 node pAbs root1) =
      storePaths s ++ [pAbs] := by
    unfold commitState
    unfold storePaths
    simp only [List.map_append, List.map_cons, List.map_nil]
    rw [hpath]
    apply congrArg (fun l => l ++ [pAbs])
    exact storePaths_congr store1 s.store hlen1 hpaths1
  have hnodes' : ∀ k id, (k, id) ∈ setNodeKV s.nodes pAbs s.store.length →
      id < (store1 ++ [node]).length ∧ k = pathOf (store1 ++ [node]) id := by
    intro k id hk
    rcases mem_setNodeKV s.nodes pAbs s.store.length (k, id) hk with
      hold | ⟨hsame, hv⟩ | heq
    · obtain ⟨h1, h2⟩ := hI.nodes_range k id hold
      refine ⟨by omega, ?_⟩
      rw [hplt id h1, h2]
    · simp only at hsame hv
      subst hv
      have : k = pAbs := sameValueZero_eq hsame
      subst this
      exact ⟨by omega, hplast.symm⟩
    · cases heq
      exact ⟨by omega, hplast.symm⟩
  refine ⟨⟨hcr', ?_, hnodes', ?_⟩, hpaths', ?_⟩
  · -- root_lt
    intro r hr
    have hr' : root1 = some r := hr
    show r < (store1 ++ [node]).length
    rcases hroot with ⟨hr1, _⟩ | hr1
    · rw [hr1] at hr'
      cases hr'
      omega
    · rw [hr1] at hr'
      have := hI.root_lt r hr'
      omega
  · -- reach_nodup
    rcases hroot with ⟨hr1, hs1⟩ | hr1
    · subst hr1
      subst hs1
      show (reachF (s.store ++ [node]) ((s.store ++ [node]).length + 1)
        s.store.length).Nodup
      rw [hlen']
      have : reachF (s.store ++ [node]) (s.store.length + 1 + 1)
          s.store.length = [s.store.length] := by
        show reachF _ ((s.store.length + 1) + 1) _ = _
        rw [show ∀ (S : List SceneNodeD) (f id : Nat), reachF S (f + 1) id =
          id :: ((childrenOf S id).map (reachF S f)).flatten
          from fun _ _ _ => rfl]
        rw [hchlast]
        rfl
      rw [this]
      exact List.nodup_singleton _
    · subst hr1
      show (reachIds { store := store1 ++ [node], root := s.root,
                       externalResources := s.externalResources,
                       subResources := s.subResources,
                       nodes := setNodeKV s.nodes pAbs s.store.length }).Nodup
      unfold reachIds
      cases hroot2 : s.root with
      | none => exact List.nodup_nil
      | some r =>
        have hrlen : r < s.store.length := hI.root_lt r hroot2
        have hreach_old : (reachF s.store (s.store.length + 1) r).Nodup := by
          have := hI.reach_nodup
          unfold reachIds at this
          rw [hroot2] at this
          exact this
        show (reachF (store1 ++ [node]) ((store1 ++ [node]).length + 1)
          r).Nodup
        rw [show (store1 ++ [node]).length = s.store.length + 1 from hlen']
        rcases hstore with rfl | ⟨pid, hpid, rfl⟩
        · rw [reachF_append s.store node hI.children_range _ r hrlen]
          rw [reachF_stable s.store hI.children_range
            (s.store.length + 2) (s.store.length + 1 + 1)
            (s.store.length + 1) r hrlen (by omega) (by omega) (by omega)]
          exact hreach_old
        · rw [List.nodup_iff_count_le_one]
          intro x
          have hcount := count_reachF_push s.store pid node hch
            hI.children_range hpid s.store.length r x hrlen (by omega)
          rw [show s.store.length + 1 + 1 = s.store.length + 2 from rfl]
          rw [hcount]
          have hold := List.nodup_iff_count_le_one.mp hreach_old x
          by_cases hx : x = s.store.length
          · rw [if_pos hx]
            have hzero : (reachF s.store (s.store.length + 1) r).count x = 0 := by
              apply List.count_eq_zero_of_not_mem
              intro hmem
              have := reachF_bounds s.store hI.children_range
                (s.store.length + 1) r x hrlen hmem
              omega
            have hpc := List.nodup_iff_count_le_one.mp hreach_old pid
            omega
          · rw [if_neg hx]
            omega
  · -- NodesExact
    intro hnd hNE
    unfold NodesExact
    simp only
    have hfresh : ∀ e ∈ s.nodes, sameValueZero e.1 pAbs = false := by
      intro e he
      obtain ⟨h1, h2⟩ := hI.nodes_range e.1 e.2 (by simpa using he)
      rw [h2]
      apply nodupPB_last_fresh (storePaths s) pAbs hnd
      unfold storePaths pathOf
      rw [getD_as_getElem?, List.getElem?_eq_getElem (by simpa using h1),
        Option.getD_some]
      exact List.mem_map_of_mem _ (List.getElem_mem _)
    rw [setNodeKV_fresh s.nodes pAbs s.store.length hfresh, hNE]
    rw [hlen', List.range_succ, List.map_append]
    apply congrArg₂ (fun a b => a ++ b)
    · apply List.map_congr_left
      intro i hi
      rw [List.mem_range] at hi
      rw [hplt i hi]
    · simp only [List.map_cons, List.map_nil]
      rw [hplast]

theorem commit_ok_step (s s' : SceneState) (pAbs : PVal)
    (store1 : List SceneNodeD) (node : SceneNodeD) (root1 : Option Nat)
    (hI : Inv s) (hch : node.children = []) (hpath : node.path = pAbs)
    (hstore : store1 = s.store ∨ ∃ pid, pid < s.store.length ∧
      store1 = pushChildAt s.store pid s.store.length)
    (hroot : (root1 = some s.store.length ∧ store1 = s.store) ∨
      root1 = s.root)
    (hok : (Except.ok (commitState s store1 node pAbs root1) :
      Except PErr SceneState) = Except.ok s') :
    Inv s' ∧ s'.store.length = s.store.length + 1 ∧
    (∃ a, storePaths s' = storePaths s ++ [a]) ∧
    (nodupPB (storePaths s') = true → NodesExact s → NodesExact s') := by
  have hcs : commitState s store1 node pAbs root1 = s' := Except.ok.inj hok
  subst hcs
  obtain ⟨hInv, hsp, hne⟩ :=
    mkState_inv s node pAbs store1 root1 hI hch hpath hstore hroot
  refine ⟨hInv, ?_, ⟨pAbs, hsp⟩,
    fun hnd hNE => hne (by rw [hsp] at hnd; exact hnd) hNE⟩
  show (store1 ++ [node]).length = s.store.length + 1
  rcases hstore with rfl | ⟨pid, _, rfl⟩
  · simp
  · simp [pushChildAt_length]

/-- One successful `node`-tag dispatch preserves the structural
invariant, commits exactly one node (one more store entry, one more
committed path), and — as long as the committed paths stay pairwise
distinct — keeps the `nodes` map the exact path-indexed association. -/
theorem handleNodeTag_step (s : SceneState) (tag : TagD)
    (props : List PResult) (bodyText : String) (s' : SceneState)
    (hI : Inv s) (h : handleNodeTag s tag props bodyText = .ok s') :
    Inv s' ∧ s'.store.length = s.store.length + 1 ∧
    (∃ a, storePaths s' = storePaths s ++ [a]) ∧
    (nodupPB (storePaths s') = true → NodesExact s → NodesExact s') := by
  unfold handleNodeTag at h
  cases hr : resolveNodePath s (tagGetField tag "name")
      (tagGetField tag "parent") with
  | error e =>
    rw [hr] at h
    exact Except.noConfusion (show Except.error e = Except.ok s' from h)
  | ok v =>
    obtain ⟨parentV, pAbs, pRel⟩ := v
    rw [hr] at h
    cases hri : resolveInstance s (tagGetField tag "instance") with
    | error e =>
      rw [hri] at h
      exact Except.noConfusion (show Except.error e = Except.ok s' from h)
    | ok w =>
      obtain ⟨resourcePath, ctx1⟩ := w
      rw [hri] at h
      cases hsf : props.find?
          (fun r => decide (r.name = JSValue.str "script")) with
      | none =>
        rw [hsf] at h
        refine commit_ok_step s s' pAbs _ _ _ hI rfl rfl ?_ ?_ h
        · by_cases hpu : pIsUndef parentV = true
          · left
            rw [if_pos hpu]
          · rw [if_neg hpu]
            by_cases hpt : truthy parentV = true
            · rw [if_pos hpt]
              cases hg : getNodeKV s.nodes parentV with
              | none => left; rfl
              | some pid =>
                right
                obtain ⟨k', hk⟩ := getNodeKV_mem s.nodes parentV pid hg
                exact ⟨pid, (hI.nodes_range k' pid hk).1, rfl⟩
            · rw [if_neg hpt]
              left
              rfl
        · by_cases hpu : pIsUndef parentV = true
          · left
            constructor
            · rw [if_pos hpu]
            · rw [if_pos hpu]
          · right
            rw [if_neg hpu]
      | some r =>
        rw [hsf] at h
        replace h : (pIndex0 r.value >>= _) = Except.ok s' := h
        cases hsid : pIndex0 r.value with
        | error e =>
          rw [hsid] at h
          exact Except.noConfusion
            (show Except.error e = Except.ok s' from h)
        | ok sid =>
          rw [hsid] at h
          refine commit_ok_step s s' pAbs _ _ _ hI rfl rfl ?_ ?_ h
          · by_cases hpu : pIsUndef parentV = true
            · left
              rw [if_pos hpu]
            · rw [if_neg hpu]
              by_cases hpt : truthy parentV = true
              · rw [if_pos hpt]
                cases hg : getNodeKV s.nodes parentV with
                | none => left; rfl
                | some pid =>
                  right
                  obtain ⟨k', hk⟩ := getNodeKV_mem s.nodes parentV pid hg
                  exact ⟨pid, (hI.nodes_range k' pid hk).1, rfl⟩
              · rw [if_neg hpt]
                left
                rfl
          · by_cases hpu : pIsUndef parentV = true
            · left
              constructor
              · rw [if_pos hpu]
              · rw [if_pos hpu]
            · right
              rw [if_neg hpu]

/-- The top-level loop preserves the structural invariant, only appends
to the committed-path list, and — as long as the final committed paths
are pairwise distinct — keeps the `nodes` map exact. -/
theorem sceneLoop_inv (cs : List Char) :
    ∀ fuel p s sf, Inv s → sceneLoop cs fuel p s = .ok sf →
      Inv sf ∧ (∃ l, storePaths sf = storePaths s ++ l) ∧
      (nodupPB (storePaths sf) = true → NodesExact s → NodesExact sf) := by
  intro fuel
  induction fuel with
  | zero =>
    intro p s sf _ h
    exact Except.noConfusion h
  | succ fuel ih =>
    intro p s sf hI h
    have hsame : ∀ p2 (s2 : SceneState), s2.store = s.store →
        s2.root = s.root → s2.nodes = s.nodes →
        sceneLoop cs fuel p2 s2 = .ok sf →
        Inv sf ∧ (∃ l, storePaths sf = storePaths s ++ l) ∧
        (nodupPB (storePaths sf) = true → NodesExact s → NodesExact sf) := by
      intro p2 s2 hst hrt hnd2 hrun
      have hI2 : Inv s2 := by
        refine ⟨?_, ?_, ?_, ?_⟩
        · intro i hi c hc
          rw [hst] at hi hc ⊢
          exact hI.children_range i hi c hc
        · intro r hr
          rw [hrt] at hr
          rw [hst]
          exact hI.root_lt r hr
        · intro k id hk
          rw [hnd2] at hk
          rw [hst]
          exact hI.nodes_range k id hk
        · have hre : reachIds s2 = reachIds s := by
            unfold reachIds
            rw [hrt, hst]
          rw [hre]
          exact hI.reach_nodup
      have hsp2 : storePaths s2 = storePaths s := by
        unfold storePaths
        rw [hst]
      obtain ⟨hInv, ⟨l, hl⟩, hne⟩ := ih p2 s2 sf hI2 hrun
      refine ⟨hInv, ⟨l, by rw [hl, hsp2]⟩, ?_⟩
      intro hnd hNE
      refine hne hnd ?_
      unfold NodesExact at hNE ⊢
      rw [hnd2, hst]
      exact hNE
    have hnodestep : ∀ (tag : TagD) (props : List PResult)
        (bodyText : String) (s1 : SceneState) (p2 : Nat),
        handleNodeTag s tag props bodyText = .ok s1 →
        sceneLoop cs fuel p2 s1 = .ok sf →
        Inv sf ∧ (∃ l, storePaths sf = storePaths s ++ l) ∧
        (nodupPB (storePaths sf) = true → NodesExact s → NodesExact sf) := by
      intro tag props bodyText s1 p2 hnode hrun
      obtain ⟨hI1, hlen1, ⟨a, ha⟩, hne1⟩ :=
        handleNodeTag_step s tag props bodyText s1 hI hnode
      obtain ⟨hInv, ⟨l, hl⟩, hne⟩ := ih p2 s1 sf hI1 hrun
      refine ⟨hInv, ⟨[a] ++ l, ?_⟩, ?_⟩
      · rw [hl, ha, List.append_assoc]
      · intro hnd hNE
        have hnd1 : nodupPB (storePaths s1) = true := by
          rw [hl] at hnd
          exact nodupPB_append_left _ _ hnd
        exact hne hnd (hne1 hnd1 hNE)
    simp only [sceneLoop] at h
    split at h
    · exact Except.noConfusion h
    · split at h
      · cases Except.ok.inj h
        exact ⟨hI, ⟨[], by simp⟩, fun _ hne => hne⟩
      · split at h
        · split at h
          · exact Except.noConfusion h
          · refine hsame _ _ ?_ ?_ ?_ h <;> rfl
        · split at h
          · exact Except.noConfusion h
          · split at h
            · refine hsame _ _ ?_ ?_ ?_ h <;> rfl
            · split at h
              · split at h
                · exact Except.noConfusion h
                · refine hsame _ _ ?_ ?_ ?_ h <;> rfl
              · split at h
                · split at h
                  · exact Except.noConfusion h
                  · split at h
                    · exact Except.noConfusion h
                    · exact hnodestep _ _ _ _ _ (by assumption) h
                · refine hsame _ _ ?_ ?_ ?_ h <;> rfl

/-- C6 (amended): after `parseScene` completes without error, *provided
the committed nodes' absolute paths are pairwise distinct under the
`Map`'s SameValueZero key equality* (which duplicate-resolving node tags
can violate — see the counterexample), every node reachable from
`scene.root` through `children` edges appears exactly once in the
reachable listing, `scene.nodes` is exactly the association of each
committed node's absolute path to that node in order, and absolute
paths are unique within the scene. -/
theorem c6_nodes_exact_of_distinct_paths (t : String) (s : SceneState)
    (hok : runScene t = .ok s)
    (hnd : nodupPB (storePaths s) = true) :
    (reachIds s).Nodup ∧
    s.nodes = (List.range s.store.length).map
      (fun i => (nodePathAt s i, i)) ∧
    (∀ i j, i < j → j < s.store.length →
      sameValueZero (nodePathAt s i) (nodePathAt s j) = false) := by
  have hinit : Inv initState := by
    refine ⟨?_, ?_, ?_, ?_⟩
    · intro i hi
      exact absurd hi (by simp [initState])
    · intro r hr
      exact Option.noConfusion hr
    · intro k id hk
      exact absurd hk (by simp [initState])
    · exact List.nodup_nil
  obtain ⟨hInv, _, hne⟩ :=
    sceneLoop_inv t.data (FUEL t.data) 0 initState s hinit hok
  have hNE : NodesExact s := hne hnd rfl
  have hg : ∀ i, i < s.store.length →
      (storePaths s).getD i (PVal.js .undef) = nodePathAt s i := by
    intro i hi
    unfold storePaths nodePathAt nodeAt
    rw [List.getD_eq_getD_get?, List.get?_eq_getElem?, List.getElem?_map,
      List.getElem?_eq_getElem hi, getD_as_getElem?,
      List.getElem?_eq_getElem hi]
    rfl
  refine ⟨hInv.reach_nodup, hNE, ?_⟩
  intro i j hij hj
  have hlen : j < (storePaths s).length := by
    unfold storePaths
    simpa using hj
  have := nodupPB_getD_ne (storePaths s) hnd i j hij hlen
  rw [hg i (by omega), hg j hj] at this
  exact this

/-- Witness for the amended C6 at the three-node input of C3: the parse
succeeds, the committed paths `A`, `A/B`, `A/B/C` are pairwise distinct,
and the conclusion holds for the resulting scene. -/
theorem c6_nodes_exact_of_distinct_paths_witness :
    (reachIds (endScene c3Input)).Nodup ∧
    (endScene c3Input).nodes =
      (List.range (endScene c3Input).store.length).map
        (fun i => (nodePathAt (endScene c3Input) i, i)) ∧
    (∀ i j, i < j → j < (endScene c3Input).store.length →
      sameValueZero (nodePathAt (endScene c3Input) i)
        (nodePathAt (endScene c3Input) j) = false) :=
  c6_nodes_exact_of_distinct_paths c3Input (endScene c3Input) rfl rfl

/-- Witness for C10's quantified conjuncts at concrete inputs: the rule
does fire on `(1)` with the nonempty inner text `1`, and
`parseConstruct` fails on `f()` exactly as stated. -/
theorem c10_empty_parens_no_array_witness :
    (∃ inner : List Char, 1 ≤ inner.length ∧
      RuleRes.accept .ARRAY (.arr [.num (some 1)]) 3 =
        .accept .ARRAY (.arr ((splitCommas inner).map classifyFragment))
          (inner.length + 2)) ∧
    parseConstruct ("f()".data) 0 =
      .error (.unexpectedToken .ARRAY .PARENTHESIS_OPEN 1 1 2) :=
  ⟨c10_empty_parens_no_array.2.1 ("(1)".data)
     (.accept .ARRAY (.arr [.num (some 1)]) 3) (by decide),
   c10_empty_parens_no_array.2.2.1 ("f()".data) 0 1 2
     ⟨.IDENTIFIER, .str "f", "f", 0, 1, 1⟩
     ⟨.PARENTHESIS_OPEN, .str "(", "(", 1, 1, 2⟩
     (by decide) (by decide) rfl⟩

end GodotScene
